import Mathlib

/-!
# Geohash aggregation (`src/lib/geohash.js`)

A shallow embedding of the precision reducer, the distinct-count probe and the
aggregator.

Modelling conventions.

* JavaScript values that flow through the module are values of `JSVal`.  Its
  numbers are the integers (precisions, limits, counts), printed in decimal as
  JavaScript prints an integer below 10^21; `NaN` only arises as the result of
  `parseInt` and is the `none` of `Option Int`.  The fields of a bounding box,
  which may be any number, are of a type of their own (see `Box`).
* The query executor (`Geohash.query`; `aggregate` reaches it as `self.query`, the
  two being the same when `aggregate` is called on `Geohash`) is a state machine
  `exec : σ → String → Response × σ`: it receives the SQL text, answers by calling
  back once with `(err, res)`, and may change the database state.  A database
  that never changes is the case where the answer does not depend on `σ`.
* Callback-passing code is written in direct style.  A run records, in order,
  every query issued together with the answer received, and then how the run
  ended: the arguments handed to the callback, or a thrown exception.
* The recursion of `reducePrecision` has no lower bound in the source, so its
  embedding takes a fuel argument counting the probes it may still issue; a run
  whose fuel ran out has no outcome yet.
* The object `agg` is a plain object used as a string-keyed map: a run keeps its
  own properties.  The one property name that assignment treats specially on a
  plain object, `__proto__`, is modelled: it reaches the accessor of
  `Object.prototype` and creates no own property.
* The collaborators `Geoservices.parseWhere`, `Geoservices.parseGeometry`,
  `turf-centroid` and `ngeohash.encode` are parameters.  One that can throw
  returns an `Except`, so that a result which holds for every such parameter, one
  that always throws included, says that the collaborator was not called.  The
  conversion of a box field to text, which is JavaScript's, is a parameter too.
-/

namespace Geohash

/-! ## JavaScript values -/

/-- JavaScript values handled by the module. -/
inductive JSVal where
  | undefined
  | null
  | bool (b : Bool)
  | num (n : Int)
  | str (s : String)
  | error (message : String)
  deriving DecidableEq, Repr

/-- JavaScript truthiness (`if (v)`). -/
def truthy : JSVal → Bool
  | .undefined => false
  | .null => false
  | .bool b => b
  | .num n => n != 0
  | .str s => s != ""
  | .error _ => true

/-- JavaScript `ToString`, as applied by `+` with a string operand and by
property-key coercion; an integer is printed in decimal, as JavaScript does
below 10^21. -/
def toStr : JSVal → String
  | .undefined => "undefined"
  | .null => "null"
  | .bool true => "true"
  | .bool false => "false"
  | .num n => toString n
  | .str s => s
  | .error message => if message = "" then "Error" else "Error: " ++ message

/-- White space skipped by `parseInt` before the number. -/
def isStrWhiteSpace (c : Char) : Bool :=
  c = ' ' || c = '\t' || c = '\n' || c = '\r' || c.toNat = 11 || c.toNat = 12
    || c.toNat = 160 || c.toNat = 5760 || (8192 ≤ c.toNat && c.toNat ≤ 8202)
    || c.toNat = 8232 || c.toNat = 8233 || c.toNat = 8239 || c.toNat = 8287
    || c.toNat = 12288 || c.toNat = 65279

/-- Value of a digit in the given radix (10 or 16), if it is one. -/
def digitValue (radix : Nat) (c : Char) : Option Nat :=
  if '0' ≤ c ∧ c ≤ '9' then some (c.toNat - '0'.toNat)
  else if radix = 16 ∧ 'a' ≤ c ∧ c ≤ 'f' then some (c.toNat - 'a'.toNat + 10)
  else if radix = 16 ∧ 'A' ≤ c ∧ c ≤ 'F' then some (c.toNat - 'A'.toNat + 10)
  else none

/-- Reads the longest run of digits at the head of the input: `acc` is the value
read so far and `seen` tells whether a digit was read. -/
def readDigits (radix : Nat) : List Char → Nat → Bool → Option Nat
  | [], acc, seen => if seen then some acc else none
  | c :: cs, acc, seen =>
    match digitValue radix c with
    | some d => readDigits radix cs (acc * radix + d) true
    | none => if seen then some acc else none

/-- The digits of `parseInt(s, 0)` once white space and sign are gone: radix 16
after a `0x` or `0X` mark, radix 10 otherwise. -/
def readUnsigned : List Char → Option Nat
  | '0' :: 'x' :: cs => readDigits 16 cs 0 false
  | '0' :: 'X' :: cs => readDigits 16 cs 0 false
  | cs => readDigits 10 cs 0 false

/-- `parseInt(s, 0)` on the characters of a string; `none` is `NaN`. -/
def parseIntChars (cs : List Char) : Option Int :=
  match cs.dropWhile isStrWhiteSpace with
  | '-' :: rest => (readUnsigned rest).map (fun n => - (n : Int))
  | '+' :: rest => (readUnsigned rest).map (fun n => (n : Int))
  | rest => (readUnsigned rest).map (fun n => (n : Int))

/-- `parseInt(v, 0)`: the argument is first turned into a string; `none` is
`NaN`. -/
def parseInt (v : JSVal) : Option Int :=
  parseIntChars (toStr v).data

/-- The test `parseInt(count, 0) > limit`; a comparison with `NaN` is false. -/
def exceedsLimit (count : JSVal) (limit : Int) : Bool :=
  match parseInt count with
  | some n => decide (n > limit)
  | none => false

/-! ## Data model -/

/-- The fields of the `options` object that the module reads or writes. -/
structure Options where
  where_ : JSVal
  geometry : JSVal
  whereFilter : JSVal
  geomFilter : JSVal
  deriving DecidableEq, Repr

/-- One row of a query result, with the two columns the module reads. -/
structure Row where
  geohash : JSVal
  count : JSVal
  deriving DecidableEq, Repr

/-- The second argument the executor hands to its callback: nothing, or a result
object with its ordered rows; `command` stands for everything else the object
carries. -/
inductive QueryRes where
  | undefined
  | null
  | result (rows : List Row) (command : String)
  deriving DecidableEq, Repr

/-- The answer of the executor: the arguments `(err, res)` of its callback. -/
structure Response where
  err : JSVal
  res : QueryRes
  deriving DecidableEq, Repr

/-- The query executor: SQL text in, answer out, database state threaded. -/
abbrev Executor (σ : Type) := σ → String → Response × σ

/-- The call site that issued a query. -/
inductive Event where
  | probe (precision : Int) (sql : String) (answer : Response)
  | final (sql : String) (answer : Response)
  deriving DecidableEq, Repr

/-- The `TypeError` raised by reading a property of `undefined` or `null`. -/
def typeError : JSVal := .error "TypeError"

/-! ## countDistinctGeoHash -/

/-- The text `countSql` built by `countDistinctGeoHash`. -/
def countSql (table : String) (precision : Int) (options : Options) : String :=
  let countSql := "select count(DISTINCT(substring(geohash,0," ++ toString precision
    ++ "))) as count from \"" ++ table ++ "\""
  let countSql :=
    if truthy options.whereFilter then countSql ++ toStr options.whereFilter else countSql
  let countSql :=
    if truthy options.geomFilter then
      countSql ++ ((if truthy options.whereFilter then " AND " else " WHERE ")
        ++ toStr options.geomFilter)
    else countSql
  countSql

/-- How a probe ends: its callback receives `(err, count)`, or reading the count
throws. -/
inductive ProbeOutcome where
  | callback (err : JSVal) (count : JSVal)
  | threw (e : JSVal)
  deriving DecidableEq, Repr

/-- The callback handed to `Geohash.query` by `countDistinctGeoHash`:
`if (err) return callback(err, null); callback(null, res.rows[0].count)`. -/
def probeCallback : Response → ProbeOutcome
  | ⟨err, res⟩ =>
    if truthy err then .callback err .null
    else
      match res with
      | .result (row :: _) _ => .callback .null row.count
      | _ => .threw typeError

/-- The probe `countDistinctGeoHash(table, precision, options, callback)`: the
query text, the answer of the executor, the next database state and what the
callback receives. -/
def countDistinctGeoHash {σ : Type} (exec : Executor σ) (s : σ) (table : String)
    (precision : Int) (options : Options) : String × Response × σ × ProbeOutcome :=
  let sql := countSql table precision options
  let (answer, s1) := exec s sql
  (sql, answer, s1, probeCallback answer)

/-! ## reducePrecision -/

/-- How `reducePrecision` ends: `callback(err, p)`, or an exception. -/
inductive ReduceOutcome where
  | callback (err : JSVal) (p : Int)
  | threw (e : JSVal)
  deriving DecidableEq, Repr

/-- A run of `reducePrecision`: the probes issued in order, the database state
reached, and the outcome (`none` while the descent is still going on). -/
structure Reduced (σ : Type) where
  trace : List Event
  state : σ
  result : Option ReduceOutcome

/-- The recursion `reducePrecision(table, p, options, limit, callback)`; `fuel`
bounds the number of probes. -/
def reducePrecision {σ : Type} (exec : Executor σ) :
    Nat → σ → String → Int → Options → Int → Reduced σ
  | 0, s, _, _, _, _ => ⟨[], s, none⟩
  | fuel + 1, s, table, p, options, limit =>
    match countDistinctGeoHash exec s table p options with
    | (sql, answer, s1, .threw e) => ⟨[.probe p sql answer], s1, some (.threw e)⟩
    | (sql, answer, s1, .callback err count) =>
      if exceedsLimit count limit then
        let rest := reducePrecision exec fuel s1 table (p - 1) options limit
        ⟨.probe p sql answer :: rest.trace, rest.state, rest.result⟩
      else
        ⟨[.probe p sql answer], s1, some (.callback err p)⟩

/-! ## aggregate -/

/-- The bucket mapping `agg`: an object used as a string-keyed map, kept as an
association list with one entry per own property. -/
abbrev Mapping := List (String × JSVal)

/-- The assignment `agg[key] = value`: overwrites the entry of an existing key,
adds one otherwise. -/
def Mapping.set : Mapping → String → JSVal → Mapping
  | [], key, value => [(key, value)]
  | (k, v) :: rest, key, value =>
    if k = key then (key, value) :: rest else (k, v) :: Mapping.set rest key value

/-- The value of the own property `key`, if there is one. -/
def Mapping.get : Mapping → String → Option JSVal
  | [], _ => none
  | (k, v) :: rest, key => if k = key then some v else Mapping.get rest key

/-- The own keys of the mapping. -/
def Mapping.keys (agg : Mapping) : List String := agg.map Prod.fst

/-- The object `agg` while the loop runs: its own properties, and whether it
still inherits the accessor `__proto__` of `Object.prototype`, which it does
until its prototype is set to `null`. -/
structure Agg where
  own : Mapping
  inheritsProto : Bool
  deriving DecidableEq, Repr

/-- The statement `agg[row.geohash] = row.count`; the key is the geohash coerced
to a property name.  Under the name `__proto__`, while the accessor is
inherited, the assignment reaches the setter of `Object.prototype` and creates no
own property: `null` removes the prototype (and the accessor with it), an object
becomes the prototype (an object of the model inherits from `Object.prototype`,
so the accessor stays), and any other value is ignored.  Every other assignment
sets an own property. -/
def assignRow (agg : Agg) (row : Row) : Agg :=
  if toStr row.geohash = "__proto__" ∧ agg.inheritsProto = true then
    match row.count with
    | .null => ⟨agg.own, false⟩
    | _ => agg
  else
    ⟨Mapping.set agg.own (toStr row.geohash) row.count, agg.inheritsProto⟩

/-- The loop `res.rows.forEach(function (row) { agg[row.geohash] = row.count })`
on a plain object (`var agg = {}`) whose own properties are `agg`: the own
properties the loop leaves. -/
def foldRows (agg : Mapping) (rows : List Row) : Mapping :=
  (rows.foldl assignRow ⟨agg, true⟩).own

/-- The fold of ordinary assignments, which `foldRows` comes down to when no key
is `__proto__`. -/
def setRows (agg : Mapping) (rows : List Row) : Mapping :=
  rows.foldl (fun acc row => Mapping.set acc (toStr row.geohash) row.count) agg

/-- The replacement `.replace(/ilike/g, '=')` on the characters of a string:
matches are found left to right and do not overlap. -/
def replaceIlike : List Char → List Char
  | 'i' :: 'l' :: 'i' :: 'k' :: 'e' :: rest => '=' :: replaceIlike rest
  | c :: rest => c :: replaceIlike rest
  | [] => []

/-- The replacement `.replace(/%/g, '')` on the characters of a string. -/
def removePercent (cs : List Char) : List Char :=
  cs.filter (fun c => c != '%')

/-- The normalization `whereFilter.replace(/ilike/g, '=').replace(/%/g, '')`. -/
def normalizeWhere (whereFilter : String) : String :=
  String.mk (removePercent (replaceIlike whereFilter.data))

/-- The block of `aggregate` that parses the where clause; `parseWhere` is
`Geoservices.parseWhere`, which returns the clause or throws. -/
def buildWhereFilter (parseWhere : JSVal → Except JSVal JSVal) (where_ : JSVal) :
    Except JSVal JSVal :=
  if truthy where_ then
    if where_ ≠ .str "1=1" then
      match parseWhere where_ with
      | .error e => .error e
      | .ok clause => .ok (.str (normalizeWhere (" WHERE " ++ toStr clause)))
    else
      .ok (.str (normalizeWhere (" WHERE " ++ toStr where_)))
  else
    .ok .null

/-- The bounding box returned by `Geoservices.parseGeometry`; `β` is the type of
its four fields, numbers with or without a fraction, or whatever else the parser
puts there. -/
structure Box (β : Type) where
  xmin : β
  ymin : β
  xmax : β
  ymax : β
  deriving DecidableEq, Repr

/-- The block of `aggregate` that turns the parsed geometry into a filter; `none`
is a falsy `box`.  `render` is the conversion to text that `+` applies to a field
of the box next to a string (JavaScript's `ToString`, which belongs to the
language and not to the module). -/
def buildGeomFilter {β : Type} (render : β → String) : Option (Box β) → JSVal
  | some box =>
    let bbox := render box.xmin ++ " " ++ render box.ymin ++ "," ++ render box.xmax ++ " "
      ++ render box.ymax
    .str (" ST_GeomFromGeoJSON(feature->>'geometry') && ST_SetSRID('BOX3D(" ++ bbox
      ++ ")'::box3d,4326)")
  | none => .null

/-- The variable `geoHashSelect` of `aggregate`. -/
def geoHashSelect (newPrecision precision : Int) : String :=
  if newPrecision ≤ precision then "substring(geohash,0," ++ toString newPrecision ++ ")"
  else "geohash"

/-- The text `sql` of the final query of `aggregate`, given `geoHashSelect`. -/
def finalSql (table : String) (select : String) (options : Options) : String :=
  let sql := "SELECT count(id) as count, " ++ select ++ " as geohash from \"" ++ table ++ "\""
  let sql := if truthy options.whereFilter then sql ++ toStr options.whereFilter else sql
  let sql :=
    if truthy options.geomFilter then
      sql ++ ((if truthy options.whereFilter then " AND " else " WHERE ")
        ++ toStr options.geomFilter)
    else sql
  sql ++ " GROUP BY " ++ select

/-- The second argument of the callback of `aggregate`. -/
inductive Payload where
  | mapping (agg : Mapping)
  | raw (res : QueryRes)
  deriving DecidableEq, Repr

/-- How `aggregate` ends: its callback is invoked with `err` alone (`second` is
`none`) or with `err` and a second argument, or an exception is thrown. -/
inductive Outcome where
  | callback (err : JSVal) (second : Option Payload)
  | threw (e : JSVal)
  deriving DecidableEq, Repr

/-- The callback handed to `self.query` for the final query. -/
def finalCallback : Response → Outcome
  | ⟨err, .result rows command⟩ =>
    if !truthy err && rows.length != 0 then
      .callback err (some (.mapping (foldRows [] rows)))
    else
      .callback err (some (.raw (.result rows command)))
  | ⟨err, res⟩ => .callback err (some (.raw res))

/-- A run of `aggregate`: the queries issued in order, the database state
reached, the `options` object as the call left it, and the outcome (`none` while
the reducer is still descending). -/
structure Run (σ : Type) where
  trace : List Event
  state : σ
  options : Options
  outcome : Option Outcome

/-- The `options` object once `aggregate` has cleared the two filters. -/
def resetFilters (options : Options) : Options :=
  ⟨options.where_, options.geometry, .null, .null⟩

/-- The first part of `aggregate`, up to the call of the reducer: the filters
are cleared, then built from `options.where` and `options.geometry`;
`parseGeometry` is `Geoservices.parseGeometry` and `render` the conversion to
text of the fields of its box.  An error is what `parseWhere` threw. -/
def prepareFilters {β : Type} (parseWhere : JSVal → Except JSVal JSVal)
    (parseGeometry : JSVal → Option (Box β)) (render : β → String) (options : Options) :
    Except JSVal Options :=
  let options := resetFilters options
  match buildWhereFilter parseWhere options.where_ with
  | .error e => .error e
  | .ok whereFilter =>
    .ok ⟨options.where_, options.geometry, whereFilter,
      buildGeomFilter render (parseGeometry options.geometry)⟩

/-- The callback that `aggregate` hands to the reducer, `callback(err, newPrecision)`
having been received in database state `s` after the probes `trace`. -/
def afterReduce {σ : Type} (exec : Executor σ) (trace : List Event) (s : σ) (table : String)
    (precision : Int) (options : Options) (err : JSVal) (newPrecision : Int) : Run σ :=
  if truthy err then ⟨trace, s, options, some (.callback err none)⟩
  else
    let sql := finalSql table (geoHashSelect newPrecision precision) options
    let (answer, s1) := exec s sql
    ⟨trace ++ [.final sql answer], s1, options, some (finalCallback answer)⟩

/-- The entry point `Geohash.aggregate(table, limit, precision, options, callback)`;
`fuel` bounds the number of probes of the reducer. -/
def aggregate {σ β : Type} (exec : Executor σ) (parseWhere : JSVal → Except JSVal JSVal)
    (parseGeometry : JSVal → Option (Box β)) (render : β → String) (fuel : Nat) (s : σ)
    (table : String) (limit : Int) (precision : Int) (options : Options) : Run σ :=
  match prepareFilters parseWhere parseGeometry render options with
  | .error e => ⟨[], s, resetFilters options, some (.threw e)⟩
  | .ok options =>
    let reduced := reducePrecision exec fuel s table precision options limit
    match reduced.result with
    | none => ⟨reduced.trace, reduced.state, options, none⟩
    | some (.threw e) => ⟨reduced.trace, reduced.state, options, some (.threw e)⟩
    | some (.callback err newPrecision) =>
      afterReduce exec reduced.trace reduced.state table precision options err newPrecision

/-- Whether an event is the final grouped query. -/
def Event.isFinal : Event → Bool
  | .final _ _ => true
  | .probe _ _ _ => false

/-- The filter clause in the words of the specification: empty when neither
filter is set, `whereFilter` alone, `whereFilter AND geomFilter` when both are
set, and `WHERE geomFilter` when only the geometry filter is set. -/
def specFilterClause (options : Options) : String :=
  match truthy options.whereFilter, truthy options.geomFilter with
  | false, false => ""
  | true, false => toStr options.whereFilter
  | true, true => toStr options.whereFilter ++ " AND " ++ toStr options.geomFilter
  | false, true => " WHERE " ++ toStr options.geomFilter

/-- Modelled from the spec: the scan behind `sqlSubstring`, which keeps the
characters of `cs`, the first of which stands at position `pos`, whose position
`i` satisfies `start ≤ i < stop`. -/
def sqlSubstringFrom (start stop : Int) : Int → List Char → List Char
  | _, [] => []
  | pos, c :: cs =>
    if start ≤ pos ∧ pos < stop then c :: sqlSubstringFrom start stop (pos + 1) cs
    else sqlSubstringFrom start stop (pos + 1) cs

/-- Modelled from the spec: the SQL function `substring(string, start, count)` of
the database, which is not part of the repository.  Positions are 1-based: the
result holds the characters at the positions `i` with `start ≤ i < start + count`;
a negative count is an error (`none`). -/
def sqlSubstring (stored : String) (start count : Int) : Option String :=
  if count < 0 then none
  else some (String.mk (sqlSubstringFrom start (start + count) 1 stored.data))

/-- Whether the text starts with `ilike`. -/
def startsIlike (cs : List Char) : Bool :=
  decide (cs.take 5 = ['i', 'l', 'i', 'k', 'e'])

/-- Whether the text holds an occurrence of `ilike`. -/
def hasIlike : List Char → Bool
  | [] => false
  | c :: rest => startsIlike (c :: rest) || hasIlike rest

/-- Whether the text starts with the given letters in this order, any number of
`%` characters standing before each of them. -/
def looseMatch : List Char → List Char → Bool
  | [], _ => true
  | x :: letters, cs =>
    match cs.dropWhile (fun c => c == '%') with
    | c :: rest => c == x && looseMatch letters rest
    | [] => false

/-- Whether the text starts with a broken `ilike`: the letters `i`, `l`, `i`,
`k`, `e` in a row but for `%` characters between them, at least one. -/
def startsBrokenIlike : List Char → Bool
  | [] => false
  | c :: rest => c == 'i' && looseMatch ['l', 'i', 'k', 'e'] rest && !startsIlike (c :: rest)

/-- Whether the text holds a broken `ilike`, as `il%ike` does. -/
def hasBrokenIlike : List Char → Bool
  | [] => false
  | c :: rest => startsBrokenIlike (c :: rest) || hasBrokenIlike rest

/-! ## Sample inputs -/

/-- The options of a call that filters on the always-true sentinel. -/
def sampleOptions : Options := ⟨.str "1=1", .undefined, .undefined, .undefined⟩

/-- The options above once `aggregate` has prepared the filters. -/
def samplePrepared : Options := ⟨.str "1=1", .undefined, .str " WHERE 1=1", .null⟩

/-- A where parser that hands its argument back. -/
def sampleParseWhere : JSVal → Except JSVal JSVal := fun clause => .ok clause

/-- A geometry parser that finds no box. -/
def sampleParseGeometry : JSVal → Option (Box JSVal) := fun _ => none

/-- A database that never changes: table `features` has 9 distinct buckets at
precision 3 and 2 at any other precision, and a grouped query returns the two
buckets `9` and `d`. -/
def sampleExec : Executor Unit := fun s sql =>
  if sql = countSql "features" 3 samplePrepared then
    (⟨.null, .result [⟨.undefined, .str "9"⟩] "SELECT"⟩, s)
  else if sql.data.head? = some 's' then
    (⟨.null, .result [⟨.undefined, .str "2"⟩] "SELECT"⟩, s)
  else
    (⟨.null, .result [⟨.str "9", .str "700"⟩, ⟨.str "d", .str "300"⟩] "SELECT"⟩, s)

/-- A database whose rows all carry the same geohash: every count is 1. -/
def singleBucketExec : Executor Unit := fun s _ =>
  (⟨.null, .result [⟨.undefined, .str "1"⟩] "SELECT"⟩, s)

/-- A database whose table is empty: every count is 0 and a grouped query
returns no row. -/
def emptyExec : Executor Unit := fun s sql =>
  if sql.data.head? = some 's' then
    (⟨.null, .result [⟨.undefined, .str "0"⟩] "SELECT"⟩, s)
  else
    (⟨.null, .result [] "SELECT"⟩, s)

/-- A database that counts 2 buckets and fails on the grouped query. -/
def brokenGroupExec : Executor Unit := fun s sql =>
  if sql.data.head? = some 's' then
    (⟨.null, .result [⟨.undefined, .str "2"⟩] "SELECT"⟩, s)
  else
    (⟨.error "statement timeout", .undefined⟩, s)

/-- The options of a call without where and geometry. -/
def bareOptions : Options := ⟨.undefined, .undefined, .undefined, .undefined⟩

/-- The answers of PostgreSQL on table `nulls`, whose five rows hold the
geohashes `9q8yyk`, `9q8yym`, `dr5reg`, NULL and NULL, to the two statements of a
call at precision 3 without filters: `count(DISTINCT ...)` skips the NULLs and
counts the 2 buckets `9q` and `dr`, while `GROUP BY` keeps a group for NULL and
returns 3 rows.  Any other statement is an error. -/
def nullsExec : Executor Unit := fun s sql =>
  if sql = countSql "nulls" 3 (resetFilters bareOptions) then
    (⟨.null, .result [⟨.undefined, .str "2"⟩] "SELECT"⟩, s)
  else if sql = finalSql "nulls" "substring(geohash,0,3)" (resetFilters bareOptions) then
    (⟨.null, .result [⟨.str "9q", .str "2"⟩, ⟨.str "dr", .str "1"⟩, ⟨.null, .str "2"⟩]
      "SELECT"⟩, s)
  else
    (⟨.error "unexpected statement", .undefined⟩, s)

/-- A database that counts 1 bucket and whose grouped query returns one row with
the geohash `__proto__`. -/
def protoExec : Executor Unit := fun s sql =>
  if sql.data.head? = some 's' then
    (⟨.null, .result [⟨.undefined, .str "1"⟩] "SELECT"⟩, s)
  else
    (⟨.null, .result [⟨.str "__proto__", .str "3"⟩] "SELECT"⟩, s)

/-- A database that answers every query with an error. -/
def failingExec : Executor Unit := fun s _ =>
  (⟨.error "connection refused", .undefined⟩, s)

/-- A where parser that rejects every expression. -/
def rejectingParseWhere : JSVal → Except JSVal JSVal := fun _ => .error (.error "Parse error")

/-- A where parser whose clause matches with `ilike` and wildcards. -/
def ilikeParseWhere : JSVal → Except JSVal JSVal := fun _ => .ok (.str "name ilike '%foo%'")

/-- A where parser whose clause compares with a pattern that holds a wildcard
between `il` and `ike`. -/
def patternParseWhere : JSVal → Except JSVal JSVal := fun _ => .ok (.str "name ilike 'il%ike'")

/-- A where parser whose clause writes the operator in upper case. -/
def upperParseWhere : JSVal → Except JSVal JSVal := fun _ => .ok (.str "name ILIKE 'foo'")

/-- A geometry parser that finds the box from (0, 0) to (10, 10). -/
def boxParseGeometry : JSVal → Option (Box JSVal) :=
  fun _ => some ⟨.num 0, .num 0, .num 10, .num 10⟩

/-- A number with one decimal digit: `tenths / 10`. -/
structure Tenths where
  tenths : Int
  deriving DecidableEq, Repr

/-- The text JavaScript prints for such a number (of a size below 10^21):
`-122.5`, `37.2`, `10`. -/
def renderTenths (x : Tenths) : String :=
  (if x.tenths < 0 then "-" else "") ++ toString (x.tenths.natAbs / 10)
    ++ (if x.tenths.natAbs % 10 = 0 then "" else "." ++ toString (x.tenths.natAbs % 10))

/-- A geometry parser that finds the box from (-122.5, 37.2) to (-121.9, 37.8). -/
def tenthsParseGeometry : JSVal → Option (Box Tenths) :=
  fun _ => some ⟨⟨-1225⟩, ⟨372⟩, ⟨-1219⟩, ⟨378⟩⟩

/-- The options of a call that filters on a name. -/
def nameOptions : Options := ⟨.str "name like 'foo'", .str "0,0,10,10", .undefined, .undefined⟩

/-- The options of a call without filters, holding fragments left by an earlier
call. -/
def staleOptions : Options := ⟨.undefined, .undefined, .str " WHERE old", .str " old box"⟩

/-- The options of a call whose where expression holds a pattern. -/
def patternOptions : Options := ⟨.str "name like 'il%ike'", .undefined, .undefined, .undefined⟩

/-- The options of a call whose where expression is malformed. -/
def malformedOptions : Options := ⟨.str "name = ", .undefined, .undefined, .undefined⟩

/-! ## create -/

/-- A value held in `coordinates`: a number, or an array of such values; `ν` is
the type of the numbers, which `create` only hands on. -/
inductive Coord (ν : Type) where
  | num (x : ν)
  | arr (items : List (Coord ν))

/-- The `geometry` of a feature: its `type`, and its `coordinates`, an array when
present (`none` is `undefined` or `null`). -/
structure Geometry (ν : Type) where
  type : JSVal
  coordinates : Option (List (Coord ν))

/-- A GeoJSON feature, with the one field `create` reads (`none` is `undefined`
or `null`). -/
structure Feature (ν : Type) where
  geometry : Option (Geometry ν)

/-- How `create` ends: it returns `null` or the text of the encoder, or an
exception is thrown. -/
inductive Created where
  | null
  | geohash (text : String)
  | threw (e : JSVal)
  deriving DecidableEq, Repr

/-- The statement `return ngeohash.encode(...)`, given how the encoder ended. -/
def Created.ofEncode : Except JSVal String → Created
  | .ok text => .geohash text
  | .error e => .threw e

/-- The function `Geohash.create(feature, precision)`; `centroid` is
`turf-centroid` and `encode` is `ngeohash.encode`, each returning or throwing;
an argument `none` of the encoder is `undefined`. -/
def create {ν : Type} (centroid : Feature ν → Except JSVal (Feature ν))
    (encode : Option (Coord ν) → Option (Coord ν) → Int → Except JSVal String)
    (feature : Feature ν) (precision : Int) : Created :=
  match feature.geometry with
  | none => .null
  | some geometry =>
    match geometry.coordinates with
    | none => .null
    | some _ =>
      match (if geometry.type ≠ .str "Point" then centroid feature else .ok feature) with
      | .error e => .threw e
      | .ok feature =>
        match feature.geometry with
        | none => .threw typeError
        | some geometry =>
          match geometry.coordinates with
          | none => .threw typeError
          | some pnt => Created.ofEncode (encode pnt[1]? pnt[0]? precision)

/-- A centroid function that throws. -/
def failingCentroid : Feature Int → Except JSVal (Feature Int) :=
  fun _ => .error (.error "centroid called")

/-- An encoder that throws. -/
def failingEncode : Option (Coord Int) → Option (Coord Int) → Int → Except JSVal String :=
  fun _ _ _ => .error (.error "encode called")

/-- A centroid function that answers with the point (4, 7). -/
def sampleCentroid : Feature Int → Except JSVal (Feature Int) :=
  fun _ => .ok ⟨some ⟨.str "Point", some [.num 4, .num 7]⟩⟩

/-- An encoder that spells out its arguments. -/
def sampleEncode : Option (Coord Int) → Option (Coord Int) → Int → Except JSVal String
  | some (.num latitude), some (.num longitude), precision =>
    .ok ("lat " ++ toString latitude ++ " lon " ++ toString longitude ++ " p "
      ++ toString precision)
  | _, _, _ => .error typeError

/-- A point at longitude -122 and latitude 37. -/
def samplePoint : Feature Int := ⟨some ⟨.str "Point", some [.num (-122), .num 37]⟩⟩

/-- A line from (0, 0) to (8, 14). -/
def sampleLine : Feature Int :=
  ⟨some ⟨.str "LineString", some [.arr [.num 0, .num 0], .arr [.num 8, .num 14]]⟩⟩

/-! ## The reducer, step by step -/

theorem parseInt_null : parseInt .null = none := by decide

theorem exceedsLimit_null (limit : Int) : exceedsLimit .null limit = false := by
  simp [exceedsLimit, parseInt_null]

theorem probeCallback_of_error (answer : Response) (h : truthy answer.err = true) :
    probeCallback answer = .callback answer.err .null := by
  cases answer with
  | mk err res => simp only [probeCallback]; simp_all

/-- One probe of the reducer: what a run with fuel left does first. -/
theorem reducePrecision_succ {σ : Type} (exec : Executor σ) (fuel : Nat) (s : σ)
    (table : String) (p : Int) (options : Options) (limit : Int) :
    reducePrecision exec (fuel + 1) s table p options limit =
      match probeCallback (exec s (countSql table p options)).1 with
      | .threw e =>
        ⟨[.probe p (countSql table p options) (exec s (countSql table p options)).1],
          (exec s (countSql table p options)).2, some (.threw e)⟩
      | .callback err count =>
        if exceedsLimit count limit then
          ⟨.probe p (countSql table p options) (exec s (countSql table p options)).1 ::
              (reducePrecision exec fuel (exec s (countSql table p options)).2 table (p - 1)
                options limit).trace,
            (reducePrecision exec fuel (exec s (countSql table p options)).2 table (p - 1)
                options limit).state,
            (reducePrecision exec fuel (exec s (countSql table p options)).2 table (p - 1)
                options limit).result⟩
        else
          ⟨[.probe p (countSql table p options) (exec s (countSql table p options)).1],
            (exec s (countSql table p options)).2, some (.callback err p)⟩ := by
  simp only [reducePrecision, countDistinctGeoHash]
  cases h : probeCallback (exec s (countSql table p options)).1 <;> simp

theorem reducePrecision_stop {σ : Type} (exec : Executor σ) (fuel : Nat) (s : σ)
    (table : String) (p : Int) (options : Options) (limit : Int) (err count : JSVal)
    (h : probeCallback (exec s (countSql table p options)).1 = .callback err count)
    (hlim : exceedsLimit count limit = false) :
    reducePrecision exec (fuel + 1) s table p options limit =
      ⟨[.probe p (countSql table p options) (exec s (countSql table p options)).1],
        (exec s (countSql table p options)).2, some (.callback err p)⟩ := by
  rw [reducePrecision_succ, h]
  simp [hlim]

theorem reducePrecision_descend {σ : Type} (exec : Executor σ) (fuel : Nat) (s : σ)
    (table : String) (p : Int) (options : Options) (limit : Int) (err count : JSVal)
    (h : probeCallback (exec s (countSql table p options)).1 = .callback err count)
    (hlim : exceedsLimit count limit = true) :
    reducePrecision exec (fuel + 1) s table p options limit =
      ⟨.probe p (countSql table p options) (exec s (countSql table p options)).1 ::
          (reducePrecision exec fuel (exec s (countSql table p options)).2 table (p - 1)
            options limit).trace,
        (reducePrecision exec fuel (exec s (countSql table p options)).2 table (p - 1)
            options limit).state,
        (reducePrecision exec fuel (exec s (countSql table p options)).2 table (p - 1)
            options limit).result⟩ := by
  rw [reducePrecision_succ, h]
  simp [hlim]

theorem reducePrecision_threw {σ : Type} (exec : Executor σ) (fuel : Nat) (s : σ)
    (table : String) (p : Int) (options : Options) (limit : Int) (e : JSVal)
    (h : probeCallback (exec s (countSql table p options)).1 = .threw e) :
    reducePrecision exec (fuel + 1) s table p options limit =
      ⟨[.probe p (countSql table p options) (exec s (countSql table p options)).1],
        (exec s (countSql table p options)).2, some (.threw e)⟩ := by
  rw [reducePrecision_succ, h]

/-- The reported precision never exceeds the starting one. -/
theorem reducePrecision_result_le {σ : Type} (exec : Executor σ) (table : String)
    (options : Options) (limit : Int) :
    ∀ (fuel : Nat) (s : σ) (p : Int) (err : JSVal) (q : Int),
      (reducePrecision exec fuel s table p options limit).result = some (.callback err q) →
        q ≤ p := by
  intro fuel
  induction fuel with
  | zero => intro s p err q h; simp [reducePrecision] at h
  | succ fuel ih =>
    intro s p err q h
    rw [reducePrecision_succ] at h
    cases hc : probeCallback (exec s (countSql table p options)).1 with
    | threw e => rw [hc] at h; simp at h
    | callback err1 count =>
      rw [hc] at h
      by_cases hlim : exceedsLimit count limit = true
      · simp only [hlim, if_true] at h
        have := ih _ _ _ _ h
        omega
      · simp only [hlim] at h
        simp at h
        omega

theorem exceedsLimit_eq_true {count : JSVal} {limit : Int} {n : Int}
    (h : parseInt count = some n) : (exceedsLimit count limit = true ↔ limit < n) := by
  simp [exceedsLimit, h]

/-- The descent stops at the first precision whose count is within the limit. -/
theorem reducePrecision_descent {σ : Type} (exec : Executor σ) (table : String)
    (options : Options) (limit : Int) (distinctCount : Int → Int) (p' : Int)
    (hlim : distinctCount p' ≤ limit) :
    ∀ (n : Nat) (p : Int), p = p' + n →
      (∀ (s : σ) (r : Int), p' ≤ r → r ≤ p → ∃ count,
        (countDistinctGeoHash exec s table r options).2.2.2 = .callback .null count ∧
          parseInt count = some (distinctCount r)) →
      ∃ q, p' ≤ q ∧ q ≤ p ∧ distinctCount q ≤ limit ∧
        (∀ r, q < r → r ≤ p → limit < distinctCount r) ∧
        ∀ (s : σ) (fuel : Nat), (p - q).toNat < fuel →
          (reducePrecision exec fuel s table p options limit).result
            = some (.callback .null q) := by
  intro n
  induction n with
  | zero =>
    intro p hp hprobe
    have hpp : p = p' := by simpa using hp
    subst hpp
    refine ⟨p, le_refl _, le_refl _, hlim, fun r h1 h2 => absurd h1 (by omega), ?_⟩
    intro s fuel hfuel
    obtain ⟨count, hc, hparse⟩ := hprobe s p (le_refl _) (le_refl _)
    cases fuel with
    | zero => omega
    | succ fuel =>
      have hstop : exceedsLimit count limit = false := by
        simp [exceedsLimit, hparse]; exact hlim
      have hc1 : probeCallback (exec s (countSql table p options)).1 = .callback .null count := hc
      rw [reducePrecision_stop exec fuel s table p options limit _ _ hc1 hstop]
  | succ n ih =>
    intro p hp hprobe
    by_cases hdc : distinctCount p ≤ limit
    · refine ⟨p, by omega, le_refl _, hdc, fun r h1 h2 => absurd h1 (by omega), ?_⟩
      intro s fuel hfuel
      obtain ⟨count, hc, hparse⟩ := hprobe s p (by omega) (le_refl _)
      cases fuel with
      | zero => omega
      | succ fuel =>
        have hstop : exceedsLimit count limit = false := by
          simp [exceedsLimit, hparse]; exact hdc
        have hc1 : probeCallback (exec s (countSql table p options)).1 = .callback .null count := hc
        rw [reducePrecision_stop exec fuel s table p options limit _ _ hc1 hstop]
    · have hprobe1 : ∀ (s : σ) (r : Int), p' ≤ r → r ≤ p - 1 → ∃ count,
          (countDistinctGeoHash exec s table r options).2.2.2 = .callback .null count ∧
            parseInt count = some (distinctCount r) :=
        fun s r h1 h2 => hprobe s r h1 (by omega)
      obtain ⟨q, hq1, hq2, hq3, hq4, hq5⟩ := ih (p - 1) (by omega) hprobe1
      refine ⟨q, hq1, by omega, hq3, ?_, ?_⟩
      · intro r h1 h2
        by_cases hr : r = p
        · subst hr; omega
        · exact hq4 r h1 (by omega)
      · intro s fuel hfuel
        obtain ⟨count, hc, hparse⟩ := hprobe s p (by omega) (le_refl _)
        cases fuel with
        | zero => omega
        | succ fuel =>
          have hgo : exceedsLimit count limit = true :=
            (exceedsLimit_eq_true hparse).2 (by omega)
          have hc1 : probeCallback (exec s (countSql table p options)).1 = .callback .null count := hc
          rw [reducePrecision_descend exec fuel s table p options limit _ _ hc1 hgo]
          exact hq5 _ fuel (by omega)

/-- Every event of a reducer run is a probe, with the text of `countSql` at a
precision not above the starting one. -/
theorem reducePrecision_trace_probes {σ : Type} (exec : Executor σ) (table : String)
    (options : Options) (limit : Int) :
    ∀ (fuel : Nat) (s : σ) (p : Int) (e : Event),
      e ∈ (reducePrecision exec fuel s table p options limit).trace →
        ∃ q answer, e = .probe q (countSql table q options) answer ∧ q ≤ p := by
  intro fuel
  induction fuel with
  | zero => intro s p e h; simp [reducePrecision] at h
  | succ fuel ih =>
    intro s p e h
    rw [reducePrecision_succ] at h
    cases hc : probeCallback (exec s (countSql table p options)).1 with
    | threw e1 =>
      rw [hc] at h
      simp only [List.mem_singleton] at h
      exact ⟨p, _, h, le_refl _⟩
    | callback err count =>
      rw [hc] at h
      by_cases hlim : exceedsLimit count limit = true
      · simp only [hlim, if_true, List.mem_cons] at h
        rcases h with h | h
        · exact ⟨p, _, h, le_refl _⟩
        · obtain ⟨q, answer, hq, hle⟩ := ih _ _ _ h
          exact ⟨q, answer, hq, by omega⟩
      · simp only [hlim] at h
        simp only [Bool.false_eq_true, if_false, List.mem_singleton] at h
        exact ⟨p, _, h, le_refl _⟩

/-- A probe answered with an error is the last one, and its error and precision
are what the reducer reports. -/
theorem reducePrecision_error_last {σ : Type} (exec : Executor σ) (table : String)
    (options : Options) (limit : Int) :
    ∀ (fuel : Nat) (s : σ) (p : Int) (front back : List Event) (q : Int) (sql : String)
      (answer : Response),
      (reducePrecision exec fuel s table p options limit).trace
          = front ++ .probe q sql answer :: back →
        truthy answer.err = true →
          back = [] ∧
            (reducePrecision exec fuel s table p options limit).result
              = some (.callback answer.err q) := by
  intro fuel
  induction fuel with
  | zero => intro s p front back q sql answer h; simp [reducePrecision] at h
  | succ fuel ih =>
    intro s p front back q sql answer h herr
    rw [reducePrecision_succ] at h ⊢
    cases hc : probeCallback (exec s (countSql table p options)).1 with
    | threw e1 =>
      rw [hc] at h
      cases front with
      | nil =>
        simp only [List.nil_append, List.cons.injEq, Event.probe.injEq] at h
        obtain ⟨⟨_, _, h3⟩, _⟩ := h
        rw [probeCallback_of_error _ (h3 ▸ herr)] at hc
        exact absurd hc (by simp)
      | cons hd tl => simp at h
    | callback err count =>
      rw [hc] at h
      by_cases hlim : exceedsLimit count limit = true
      · simp only [hlim, if_true] at h ⊢
        cases front with
        | nil =>
          simp only [List.nil_append, List.cons.injEq, Event.probe.injEq] at h
          obtain ⟨⟨_, _, h3⟩, _⟩ := h
          rw [probeCallback_of_error _ (h3 ▸ herr)] at hc
          simp only [ProbeOutcome.callback.injEq] at hc
          rw [← hc.2, exceedsLimit_null] at hlim
          exact absurd hlim (by simp)
        | cons hd tl =>
          simp only [List.cons_append, List.cons.injEq] at h
          exact ih _ _ _ _ _ _ _ h.2 herr
      · simp only [hlim] at h ⊢
        simp only [Bool.false_eq_true, if_false] at h ⊢
        cases front with
        | nil =>
          simp only [List.nil_append, List.cons.injEq, Event.probe.injEq] at h
          obtain ⟨⟨h1, _, h3⟩, h4⟩ := h
          rw [probeCallback_of_error _ (h3 ▸ herr)] at hc
          simp only [ProbeOutcome.callback.injEq] at hc
          refine ⟨h4.symm, ?_⟩
          rw [← hc.1, h3, h1]
        | cons hd tl => simp at h

/-- With a precision `p'` at which the descent is sure to stop, a run started at
`p` with enough fuel ends within `p - p'` decrements and stays at or above `p'`. -/
theorem reducePrecision_bounded {σ : Type} (exec : Executor σ) (table : String)
    (options : Options) (limit : Int) (p' : Int)
    (hstop : ∀ (s : σ) (err count : JSVal),
      probeCallback (exec s (countSql table p' options)).1 = .callback err count →
        exceedsLimit count limit = false) :
    ∀ (fuel : Nat) (s : σ) (p : Int), p' ≤ p → (p - p').toNat < fuel →
      (reducePrecision exec fuel s table p options limit).result.isSome = true ∧
        ((reducePrecision exec fuel s table p options limit).trace.length : Int) ≤ p - p' + 1 ∧
        ∀ e ∈ (reducePrecision exec fuel s table p options limit).trace,
          ∃ q answer, e = .probe q (countSql table q options) answer ∧ p' ≤ q ∧ q ≤ p := by
  intro fuel
  induction fuel with
  | zero => intro s p _ h; omega
  | succ fuel ih =>
    intro s p hp hfuel
    rw [reducePrecision_succ]
    cases hc : probeCallback (exec s (countSql table p options)).1 with
    | threw e1 =>
      refine ⟨rfl, by simp; omega, ?_⟩
      intro e he
      simp only [List.mem_singleton] at he
      exact ⟨p, _, he, hp, le_refl _⟩
    | callback err count =>
      by_cases hlim : exceedsLimit count limit = true
      · have hne : p ≠ p' := by
          intro hpp
          subst hpp
          rw [hstop s err count hc] at hlim
          exact absurd hlim (by simp)
        obtain ⟨h1, h2, h3⟩ := ih (exec s (countSql table p options)).2 (p - 1) (by omega)
          (by omega)
        simp only [hlim, if_true]
        refine ⟨h1, by simp only [List.length_cons]; push_cast; omega, ?_⟩
        intro e he
        simp only [List.mem_cons] at he
        rcases he with he | he
        · exact ⟨p, _, he, hp, le_refl _⟩
        · obtain ⟨q, answer, hq, hq1, hq2⟩ := h3 e he
          exact ⟨q, answer, hq, hq1, by omega⟩
      · simp only [hlim]
        simp only [Bool.false_eq_true, if_false]
        refine ⟨rfl, by simp; omega, ?_⟩
        intro e he
        simp only [List.mem_singleton] at he
        exact ⟨p, _, he, hp, le_refl _⟩

theorem substringSelect_ne_geohash (q : Int) :
    "substring(geohash,0," ++ toString q ++ ")" ≠ "geohash" := by
  intro h
  have h1 := congrArg String.data h
  simp only [String.data_append] at h1
  have h2 := congrArg List.head? h1
  simp at h2

theorem geoHashSelect_of_le {q p : Int} (h : q ≤ p) :
    geoHashSelect q p = "substring(geohash,0," ++ toString q ++ ")" := by
  simp [geoHashSelect, h]

theorem aggregate_of_parse_error {σ : Type} (exec : Executor σ)
    (parseWhere : JSVal → Except JSVal JSVal) {β : Type}
    (parseGeometry : JSVal → Option (Box β)) (render : β → String)
    (fuel : Nat) (s : σ) (table : String) (limit precision : Int) (options : Options)
    (e : JSVal) (hprep : prepareFilters parseWhere parseGeometry render options = .error e) :
    aggregate exec parseWhere parseGeometry render fuel s table limit precision options
      = ⟨[], s, resetFilters options, some (.threw e)⟩ := by
  simp [aggregate, hprep]

theorem aggregate_of_pending {σ : Type} (exec : Executor σ)
    (parseWhere : JSVal → Except JSVal JSVal) {β : Type}
    (parseGeometry : JSVal → Option (Box β)) (render : β → String)
    (fuel : Nat) (s : σ) (table : String) (limit precision : Int) (options prepared : Options)
    (hprep : prepareFilters parseWhere parseGeometry render options = .ok prepared)
    (hred : (reducePrecision exec fuel s table precision prepared limit).result = none) :
    aggregate exec parseWhere parseGeometry render fuel s table limit precision options
      = ⟨(reducePrecision exec fuel s table precision prepared limit).trace,
          (reducePrecision exec fuel s table precision prepared limit).state, prepared, none⟩ := by
  simp [aggregate, hprep, hred]

theorem aggregate_of_probe_threw {σ : Type} (exec : Executor σ)
    (parseWhere : JSVal → Except JSVal JSVal) {β : Type}
    (parseGeometry : JSVal → Option (Box β)) (render : β → String)
    (fuel : Nat) (s : σ) (table : String) (limit precision : Int) (options prepared : Options)
    (e : JSVal)
    (hprep : prepareFilters parseWhere parseGeometry render options = .ok prepared)
    (hred : (reducePrecision exec fuel s table precision prepared limit).result
      = some (.threw e)) :
    aggregate exec parseWhere parseGeometry render fuel s table limit precision options
      = ⟨(reducePrecision exec fuel s table precision prepared limit).trace,
          (reducePrecision exec fuel s table precision prepared limit).state, prepared,
          some (.threw e)⟩ := by
  simp [aggregate, hprep, hred]

theorem aggregate_of_probe_error {σ : Type} (exec : Executor σ)
    (parseWhere : JSVal → Except JSVal JSVal) {β : Type}
    (parseGeometry : JSVal → Option (Box β)) (render : β → String)
    (fuel : Nat) (s : σ) (table : String) (limit precision : Int) (options prepared : Options)
    (err : JSVal) (q : Int)
    (hprep : prepareFilters parseWhere parseGeometry render options = .ok prepared)
    (hred : (reducePrecision exec fuel s table precision prepared limit).result
      = some (.callback err q))
    (herr : truthy err = true) :
    aggregate exec parseWhere parseGeometry render fuel s table limit precision options
      = ⟨(reducePrecision exec fuel s table precision prepared limit).trace,
          (reducePrecision exec fuel s table precision prepared limit).state, prepared,
          some (.callback err none)⟩ := by
  simp [aggregate, hprep, hred, afterReduce, herr]

theorem aggregate_of_reduced {σ : Type} (exec : Executor σ)
    (parseWhere : JSVal → Except JSVal JSVal) {β : Type}
    (parseGeometry : JSVal → Option (Box β)) (render : β → String)
    (fuel : Nat) (s : σ) (table : String) (limit precision : Int) (options prepared : Options)
    (err : JSVal) (q : Int)
    (hprep : prepareFilters parseWhere parseGeometry render options = .ok prepared)
    (hred : (reducePrecision exec fuel s table precision prepared limit).result
      = some (.callback err q))
    (herr : truthy err = false) :
    aggregate exec parseWhere parseGeometry render fuel s table limit precision options
      = ⟨(reducePrecision exec fuel s table precision prepared limit).trace ++
            [.final (finalSql table (geoHashSelect q precision) prepared)
              (exec (reducePrecision exec fuel s table precision prepared limit).state
                (finalSql table (geoHashSelect q precision) prepared)).1],
          (exec (reducePrecision exec fuel s table precision prepared limit).state
                (finalSql table (geoHashSelect q precision) prepared)).2,
          prepared,
          some (finalCallback
            (exec (reducePrecision exec fuel s table precision prepared limit).state
                (finalSql table (geoHashSelect q precision) prepared)).1)⟩ := by
  simp [aggregate, hprep, hred, afterReduce, herr]

/-! ## The last probe of a successful descent -/

theorem reducePrecision_last_probe {σ : Type} (exec : Executor σ) (table : String)
    (options : Options) (limit : Int) :
    ∀ (fuel : Nat) (s : σ) (p : Int) (err : JSVal) (q : Int),
      (reducePrecision exec fuel s table p options limit).result = some (.callback err q) →
        ∃ (front : List Event) (s0 : σ) (count : JSVal),
          (reducePrecision exec fuel s table p options limit).trace
              = front ++ [.probe q (countSql table q options)
                  (exec s0 (countSql table q options)).1] ∧
            probeCallback (exec s0 (countSql table q options)).1 = .callback err count ∧
            exceedsLimit count limit = false := by
  intro fuel
  induction fuel with
  | zero => intro s p err q h; simp [reducePrecision] at h
  | succ fuel ih =>
    intro s p err q h
    rw [reducePrecision_succ] at h ⊢
    cases hc : probeCallback (exec s (countSql table p options)).1 with
    | threw e => rw [hc] at h; simp at h
    | callback err1 count =>
      rw [hc] at h
      by_cases hlim : exceedsLimit count limit = true
      · simp only [hlim, if_true] at h ⊢
        obtain ⟨front, s0, count0, h1, h2, h3⟩ := ih _ _ _ _ h
        exact ⟨_ :: front, s0, count0, by rw [h1]; rfl, h2, h3⟩
      · simp only [hlim] at h ⊢
        simp only [Bool.false_eq_true, if_false, Option.some.injEq,
          ReduceOutcome.callback.injEq] at h ⊢
        obtain ⟨h1, h2⟩ := h
        subst h1 h2
        exact ⟨[], s, count, rfl, hc, by simpa using hlim⟩

/-! ## The text of the two statements -/

theorem countSql_text (table : String) (q : Int) (options : Options) :
    countSql table q options =
      "select count(DISTINCT(" ++ ("substring(geohash,0," ++ toString q ++ ")")
        ++ ")) as count from \"" ++ table ++ "\"" ++ specFilterClause options := by
  have e1 : "select count(DISTINCT(substring(geohash,0,"
      = "select count(DISTINCT(" ++ "substring(geohash,0," := by decide
  have e2 : "))) as count from \"" = ")" ++ ")) as count from \"" := by decide
  simp only [countSql, specFilterClause]
  cases truthy options.whereFilter <;> cases truthy options.geomFilter <;>
    simp only [if_true, if_false, Bool.false_eq_true, String.append_assoc] <;>
    rw [e1, e2] <;> simp only [String.append_assoc, String.append_empty]

theorem finalSql_text (table select : String) (options : Options) :
    finalSql table select options =
      "SELECT count(id) as count, " ++ select ++ " as geohash from \"" ++ table ++ "\""
        ++ specFilterClause options ++ " GROUP BY " ++ select := by
  simp only [finalSql, specFilterClause]
  cases truthy options.whereFilter <;> cases truthy options.geomFilter <;>
    simp [String.append_assoc]

/-! ## The bucket mapping -/

theorem Mapping.get_set_self (agg : Mapping) (key : String) (value : JSVal) :
    Mapping.get (Mapping.set agg key value) key = some value := by
  induction agg with
  | nil => simp [Mapping.set, Mapping.get]
  | cons hd tl ih =>
    obtain ⟨k, v⟩ := hd
    by_cases h : k = key
    · simp [Mapping.set, Mapping.get, h]
    · simp [Mapping.set, Mapping.get, h, ih]

theorem Mapping.get_set_of_ne (agg : Mapping) (key other : String) (value : JSVal)
    (hne : key ≠ other) :
    Mapping.get (Mapping.set agg key value) other = Mapping.get agg other := by
  induction agg with
  | nil => simp [Mapping.set, Mapping.get, hne]
  | cons hd tl ih =>
    obtain ⟨k, v⟩ := hd
    by_cases h : k = key
    · subst h
      simp [Mapping.set, Mapping.get, hne]
    · by_cases h2 : k = other
      · subst h2
        simp [Mapping.set, Mapping.get, h]
      · simp [Mapping.set, Mapping.get, h, h2, ih]

theorem Mapping.mem_keys_set (agg : Mapping) (key other : String) (value : JSVal) :
    other ∈ Mapping.keys (Mapping.set agg key value) ↔ other = key ∨ other ∈ Mapping.keys agg := by
  induction agg with
  | nil => simp [Mapping.set, Mapping.keys]
  | cons hd tl ih =>
    obtain ⟨k, v⟩ := hd
    by_cases h : k = key
    · subst h
      simp [Mapping.set, Mapping.keys]
    · simp only [Mapping.keys] at ih
      simp [Mapping.set, Mapping.keys, h, ih]
      tauto

theorem Mapping.nodup_keys_set (agg : Mapping) (key : String) (value : JSVal)
    (h : (Mapping.keys agg).Nodup) : (Mapping.keys (Mapping.set agg key value)).Nodup := by
  induction agg with
  | nil => simp [Mapping.set, Mapping.keys]
  | cons hd tl ih =>
    obtain ⟨k, v⟩ := hd
    have hk : k ∉ Mapping.keys tl ∧ (Mapping.keys tl).Nodup := by
      simpa [Mapping.keys] using h
    by_cases hkey : k = key
    · subst hkey
      simpa [Mapping.set, Mapping.keys] using h
    · have h1 : k ∉ Mapping.keys (Mapping.set tl key value) := by
        rw [Mapping.mem_keys_set]
        intro hc
        rcases hc with hc | hc
        · exact hkey hc
        · exact hk.1 hc
      have h2 := ih hk.2
      simp only [Mapping.set, hkey, if_false]
      simp only [Mapping.keys, List.map_cons, List.nodup_cons] at h1 h2 ⊢
      exact ⟨h1, h2⟩

theorem Mapping.length_keys_set (agg : Mapping) (key : String) (value : JSVal) :
    (Mapping.keys (Mapping.set agg key value)).length ≤ (Mapping.keys agg).length + 1 := by
  induction agg with
  | nil => simp [Mapping.set, Mapping.keys]
  | cons hd tl ih =>
    obtain ⟨k, v⟩ := hd
    by_cases hkey : k = key
    · simp [Mapping.set, Mapping.keys, hkey]
    · simp only [Mapping.keys] at ih
      simp only [Mapping.set, hkey, if_false, Mapping.keys, List.map_cons, List.length_cons]
      omega

theorem setRows_nil (agg : Mapping) : setRows agg [] = agg := rfl

theorem setRows_cons (agg : Mapping) (row : Row) (rows : List Row) :
    setRows agg (row :: rows)
      = setRows (Mapping.set agg (toStr row.geohash) row.count) rows := rfl

theorem setRows_append (agg : Mapping) (front back : List Row) :
    setRows agg (front ++ back) = setRows (setRows agg front) back := by
  simp [setRows, List.foldl_append]

theorem setRows_mem_keys (rows : List Row) :
    ∀ (agg : Mapping) (key : String),
      key ∈ Mapping.keys (setRows agg rows) ↔
        key ∈ Mapping.keys agg ∨ ∃ row ∈ rows, toStr row.geohash = key := by
  induction rows with
  | nil => intro agg key; simp [setRows_nil]
  | cons row rows ih =>
    intro agg key
    rw [setRows_cons, ih, Mapping.mem_keys_set]
    simp only [List.mem_cons, exists_eq_or_imp]
    constructor
    · rintro ((h | h) | h)
      · exact Or.inr (Or.inl h.symm)
      · exact Or.inl h
      · exact Or.inr (Or.inr h)
    · rintro (h | h | h)
      · exact Or.inl (Or.inr h)
      · exact Or.inl (Or.inl h.symm)
      · exact Or.inr h

theorem setRows_nodup_keys (rows : List Row) :
    ∀ (agg : Mapping), (Mapping.keys agg).Nodup → (Mapping.keys (setRows agg rows)).Nodup := by
  induction rows with
  | nil => intro agg h; simpa [setRows_nil] using h
  | cons row rows ih =>
    intro agg h
    rw [setRows_cons]
    exact ih _ (Mapping.nodup_keys_set agg _ _ h)

theorem setRows_length_keys (rows : List Row) :
    ∀ (agg : Mapping),
      (Mapping.keys (setRows agg rows)).length ≤ (Mapping.keys agg).length + rows.length := by
  induction rows with
  | nil => intro agg; simp [setRows_nil]
  | cons row rows ih =>
    intro agg
    rw [setRows_cons]
    have h1 := ih (Mapping.set agg (toStr row.geohash) row.count)
    have h2 := Mapping.length_keys_set agg (toStr row.geohash) row.count
    simp only [List.length_cons]
    omega

theorem setRows_get_of_absent (rows : List Row) :
    ∀ (agg : Mapping) (key : String), (∀ row ∈ rows, toStr row.geohash ≠ key) →
      Mapping.get (setRows agg rows) key = Mapping.get agg key := by
  induction rows with
  | nil => intro agg key _; rfl
  | cons row rows ih =>
    intro agg key h
    rw [setRows_cons, ih _ _ (fun r hr => h r (List.mem_cons_of_mem _ hr))]
    exact Mapping.get_set_of_ne _ _ _ _ (h row (List.mem_cons_self _ _))

theorem setRows_get_last (agg : Mapping) (front back : List Row) (row : Row)
    (hlast : ∀ r ∈ back, toStr r.geohash ≠ toStr row.geohash) :
    Mapping.get (setRows agg (front ++ row :: back)) (toStr row.geohash) = some row.count := by
  rw [setRows_append, setRows_cons, setRows_get_of_absent back _ _ hlast]
  exact Mapping.get_set_self _ _ _

theorem foldl_assignRow_of_plain (rows : List Row) :
    ∀ (agg : Agg), (∀ row ∈ rows, toStr row.geohash ≠ "__proto__") →
      rows.foldl assignRow agg = ⟨setRows agg.own rows, agg.inheritsProto⟩ := by
  induction rows with
  | nil => intro agg _; rfl
  | cons row rows ih =>
    intro agg h
    have hrow : toStr row.geohash ≠ "__proto__" := h row (List.mem_cons_self _ _)
    have hstep : assignRow agg row
        = ⟨Mapping.set agg.own (toStr row.geohash) row.count, agg.inheritsProto⟩ := by
      simp [assignRow, hrow]
    rw [List.foldl_cons, hstep, ih _ (fun r hr => h r (List.mem_cons_of_mem _ hr))]
    rfl

/-- Without the key `__proto__` the loop is a fold of ordinary assignments. -/
theorem foldRows_of_plain (agg : Mapping) (rows : List Row)
    (h : ∀ row ∈ rows, toStr row.geohash ≠ "__proto__") :
    foldRows agg rows = setRows agg rows := by
  simp only [foldRows]
  rw [foldl_assignRow_of_plain rows ⟨agg, true⟩ h]

theorem finalCallback_of_rows (err : JSVal) (rows : List Row) (command : String)
    (herr : truthy err = false) (hrows : rows ≠ []) :
    finalCallback ⟨err, .result rows command⟩
      = .callback err (some (.mapping (foldRows [] rows))) := by
  have hlen : rows.length ≠ 0 := by
    intro h
    exact hrows (List.length_eq_zero.mp h)
  simp [finalCallback, herr, hlen]

theorem finalCallback_passthrough (answer : Response)
    (h : truthy answer.err = true ∨
      ∀ rows command, answer.res = .result rows command → rows = []) :
    finalCallback answer = .callback answer.err (some (.raw answer.res)) := by
  obtain ⟨err, res⟩ := answer
  cases res with
  | undefined => rfl
  | null => rfl
  | result rows command =>
    rcases h with h | h
    · simp only at h
      simp [finalCallback, h]
    · have := h rows command rfl
      subst this
      simp [finalCallback]

/-! ## SQL substring -/

theorem sqlSubstringFrom_zero (stop : Int) :
    ∀ (cs : List Char) (pos : Int), 0 ≤ pos →
      sqlSubstringFrom 0 stop pos cs = cs.take (stop - pos).toNat := by
  intro cs
  induction cs with
  | nil => intro pos _; simp [sqlSubstringFrom]
  | cons c cs ih =>
    intro pos hpos
    by_cases h : pos < stop
    · have hk : (stop - pos).toNat = (stop - (pos + 1)).toNat + 1 := by omega
      simp only [sqlSubstringFrom, hpos, h, and_self, if_true]
      rw [hk, List.take_succ_cons, ih (pos + 1) (by omega)]
    · have hk : (stop - pos).toNat = 0 := by omega
      have hk1 : (stop - (pos + 1)).toNat = 0 := by omega
      simp only [sqlSubstringFrom, h, and_false, if_false]
      rw [hk, ih (pos + 1) (by omega), hk1]
      simp

/-! ## The claims -/

/-- C1: with an error-free probe whose count at precision `r` is
`distinctCount r`, if some precision `p' ≤ p` has a count within the limit then
`reducePrecision`, given fuel for the probes, calls back without error and with
the largest precision `q ≤ p` whose count is within the limit: every precision
above `q` up to `p` has a count above the limit. -/
theorem reducePrecision_largest {σ : Type} (exec : Executor σ) (table : String)
    (options : Options) (limit p p' : Int) (distinctCount : Int → Int)
    (hp : p' ≤ p)
    (hprobe : ∀ (s : σ) (r : Int), p' ≤ r → r ≤ p → ∃ count,
      (countDistinctGeoHash exec s table r options).2.2.2 = .callback .null count ∧
        parseInt count = some (distinctCount r))
    (hlim : distinctCount p' ≤ limit) :
    ∃ q, q ≤ p ∧ distinctCount q ≤ limit ∧
      (∀ r, q < r → r ≤ p → limit < distinctCount r) ∧
      ∀ (s : σ) (fuel : Nat), (p - q).toNat < fuel →
        (reducePrecision exec fuel s table p options limit).result
          = some (.callback .null q) := by
  obtain ⟨q, _, h2, h3, h4, h5⟩ :=
    reducePrecision_descent exec table options limit distinctCount p' hlim (p - p').toNat p
      (by omega) hprobe
  exact ⟨q, h2, h3, h4, h5⟩

/-- Witness for C1: precision 3 holds 9 buckets, precision 2 holds 2, the limit is 5. -/
theorem reducePrecision_largest_witness :
    ∃ q : Int, q ≤ 3 ∧ (fun r : Int => if r = 3 then (9 : Int) else 2) q ≤ 5 ∧
      (∀ r : Int, q < r → r ≤ 3 → 5 < (fun r : Int => if r = 3 then (9 : Int) else 2) r) ∧
      ∀ (s : Unit) (fuel : Nat), ((3 : Int) - q).toNat < fuel →
        (reducePrecision sampleExec fuel s "features" 3 samplePrepared 5).result
          = some (.callback .null q) :=
  reducePrecision_largest sampleExec "features" samplePrepared 5 3 2
    (fun r => if r = 3 then 9 else 2) (by decide)
    (by
      intro s r h1 h2
      cases s
      have hr : r = 2 ∨ r = 3 := by omega
      rcases hr with rfl | rfl
      · exact ⟨.str "2", by decide, by decide⟩
      · exact ⟨.str "9", by decide, by decide⟩)
    (by decide)

/-- C2: whenever `reducePrecision`, started at `precision`, calls back, the
precision `q` it reports is at most `precision`, whatever the probes answered;
so the test `newPrecision <= precision` of `aggregate` succeeds, the bucket
expression is the truncation `substring(geohash,0,q)` and not the bare column
`geohash`, and a final query that `aggregate` issues is built on that
truncation. -/
theorem reducePrecision_le_requested {σ : Type} (exec : Executor σ)
    (parseWhere : JSVal → Except JSVal JSVal) {β : Type}
    (parseGeometry : JSVal → Option (Box β)) (render : β → String)
    (fuel : Nat) (s : σ) (table : String) (limit precision : Int) (options prepared : Options)
    (err : JSVal) (q : Int)
    (hred : (reducePrecision exec fuel s table precision prepared limit).result
      = some (.callback err q)) :
    q ≤ precision ∧
      geoHashSelect q precision = "substring(geohash,0," ++ toString q ++ ")" ∧
      geoHashSelect q precision ≠ "geohash" ∧
      (prepareFilters parseWhere parseGeometry render options = .ok prepared →
        ∀ sql answer,
          Event.final sql answer ∈
              (aggregate exec parseWhere parseGeometry render fuel s table limit precision options).trace →
            sql = finalSql table ("substring(geohash,0," ++ toString q ++ ")") prepared) := by
  have hle := reducePrecision_result_le exec table prepared limit fuel s precision err q hred
  refine ⟨hle, geoHashSelect_of_le hle, ?_, ?_⟩
  · rw [geoHashSelect_of_le hle]
    exact substringSelect_ne_geohash q
  · intro hprep sql answer hmem
    by_cases herr : truthy err = true
    · rw [aggregate_of_probe_error exec parseWhere parseGeometry render fuel s table limit precision
        options prepared err q hprep hred herr] at hmem
      obtain ⟨r, a, hr, _⟩ := reducePrecision_trace_probes exec table prepared limit fuel s
        precision _ hmem
      exact absurd hr (by simp)
    · have herr1 : truthy err = false := by simpa using herr
      rw [aggregate_of_reduced exec parseWhere parseGeometry render fuel s table limit precision
        options prepared err q hprep hred herr1] at hmem
      simp only [List.mem_append, List.mem_singleton] at hmem
      rcases hmem with hmem | hmem
      · obtain ⟨r, a, hr, _⟩ := reducePrecision_trace_probes exec table prepared limit fuel s
          precision _ hmem
        exact absurd hr (by simp)
      · simp only [Event.final.injEq] at hmem
        rw [hmem.1, geoHashSelect_of_le hle]

/-- Witness for C2: the sample run, whose reducer goes from 3 down to 2. -/
theorem reducePrecision_le_requested_witness :
    (reducePrecision sampleExec 4 () "features" 3 samplePrepared 5).result
        = some (.callback .null 2) ∧
      ((2 : Int) ≤ 3 ∧
        geoHashSelect 2 3 = "substring(geohash,0," ++ toString (2 : Int) ++ ")" ∧
        geoHashSelect 2 3 ≠ "geohash" ∧
        (prepareFilters sampleParseWhere sampleParseGeometry toStr sampleOptions = .ok samplePrepared →
          ∀ sql answer,
            Event.final sql answer ∈
                (aggregate sampleExec sampleParseWhere sampleParseGeometry toStr 4 () "features" 5 3
                  sampleOptions).trace →
              sql = finalSql "features" ("substring(geohash,0," ++ toString (2 : Int) ++ ")")
                samplePrepared)) :=
  ⟨by decide,
    reducePrecision_le_requested sampleExec sampleParseWhere sampleParseGeometry toStr 4 ()
      "features" 5 3 sampleOptions samplePrepared .null 2 (by decide)⟩

/-- Counterexample to C3 as stated: started at precision 1 with limit 0 on a table
with one bucket, the descent probes precision 0 and is still going on. -/
theorem reducePrecision_unbounded_counterexample :
    (reducePrecision singleBucketExec 2 () "features" 1 samplePrepared 0).trace =
        [.probe 1 (countSql "features" 1 samplePrepared)
            ⟨.null, .result [⟨.undefined, .str "1"⟩] "SELECT"⟩,
          .probe 0 (countSql "features" 0 samplePrepared)
            ⟨.null, .result [⟨.undefined, .str "1"⟩] "SELECT"⟩] ∧
      (reducePrecision singleBucketExec 2 () "features" 1 samplePrepared 0).result = none := by
  decide

/-- C3, amended: when at some precision `p'` with `1 ≤ p' ≤ p` the probe never
reports a count above the limit, the descent started at `p` ends, given fuel for
`p - p' + 1` probes, after at most `p - p'` (so at most `p - 1`) decrements, and
every probe it issues is at a precision between `p'` and `p`, none below 1. -/
theorem reducePrecision_floor {σ : Type} (exec : Executor σ) (table : String)
    (options : Options) (limit p p' : Int) (fuel : Nat) (s : σ)
    (h1 : 1 ≤ p') (hp : p' ≤ p)
    (hstop : ∀ (s : σ) (err count : JSVal),
      probeCallback (exec s (countSql table p' options)).1 = .callback err count →
        exceedsLimit count limit = false)
    (hfuel : (p - p').toNat < fuel) :
    (reducePrecision exec fuel s table p options limit).result.isSome = true ∧
      ((reducePrecision exec fuel s table p options limit).trace.length : Int) - 1 ≤ p - p' ∧
      ((reducePrecision exec fuel s table p options limit).trace.length : Int) - 1 ≤ p - 1 ∧
      ∀ e ∈ (reducePrecision exec fuel s table p options limit).trace,
        ∃ q answer, e = .probe q (countSql table q options) answer ∧ 1 ≤ q ∧ p' ≤ q ∧ q ≤ p := by
  obtain ⟨r1, r2, r3⟩ :=
    reducePrecision_bounded exec table options limit p' hstop fuel s p hp hfuel
  refine ⟨r1, by omega, by omega, ?_⟩
  intro e he
  obtain ⟨q, answer, hq, hq1, hq2⟩ := r3 e he
  exact ⟨q, answer, hq, by omega, hq1, hq2⟩

/-- Witness for the amended C3: the descent from 3 is stopped at precision 2. -/
theorem reducePrecision_floor_witness :
    ((1 : Int) ≤ 2 ∧ (2 : Int) ≤ 3) ∧
    (∀ (s : Unit) (err count : JSVal),
      probeCallback (sampleExec s (countSql "features" 2 samplePrepared)).1
          = .callback err count →
        exceedsLimit count 5 = false) ∧
    ((reducePrecision sampleExec 2 () "features" 3 samplePrepared 5).result.isSome = true ∧
      ((reducePrecision sampleExec 2 () "features" 3 samplePrepared 5).trace.length : Int) - 1
        ≤ 3 - 2 ∧
      ((reducePrecision sampleExec 2 () "features" 3 samplePrepared 5).trace.length : Int) - 1
        ≤ 3 - 1 ∧
      ∀ e ∈ (reducePrecision sampleExec 2 () "features" 3 samplePrepared 5).trace,
        ∃ q answer, e = .probe q (countSql "features" q samplePrepared) answer ∧ 1 ≤ q ∧
          2 ≤ q ∧ q ≤ 3) :=
  have hstop : ∀ (s : Unit) (err count : JSVal),
      probeCallback (sampleExec s (countSql "features" 2 samplePrepared)).1
          = .callback err count →
        exceedsLimit count 5 = false := by
    intro s err count h
    cases s
    have h2 : probeCallback (sampleExec () (countSql "features" 2 samplePrepared)).1
        = .callback .null (.str "2") := by decide
    rw [h2] at h
    simp only [ProbeOutcome.callback.injEq] at h
    rw [← h.2]
    decide
  ⟨by decide, hstop,
    reducePrecision_floor sampleExec "features" samplePrepared 5 3 2 2 () (by decide)
      (by decide) hstop (by decide)⟩

/-- C4: a probe at precision `q` that the executor answers with an error is the
last one.  A call of `reducePrecision` at `q` issues that single probe and calls
back with the same error and with `q`, whatever the limit; and in any run, a
probe answered with an error is followed by no other probe, and the run calls
back with that error and the precision of that probe. -/
theorem reducePrecision_error {σ : Type} (exec : Executor σ) (table : String)
    (options : Options) (limit q : Int) :
    (∀ (s : σ) (fuel : Nat), truthy (exec s (countSql table q options)).1.err = true →
      reducePrecision exec (fuel + 1) s table q options limit =
        ⟨[.probe q (countSql table q options) (exec s (countSql table q options)).1],
          (exec s (countSql table q options)).2,
          some (.callback (exec s (countSql table q options)).1.err q)⟩) ∧
    (∀ (fuel : Nat) (s : σ) (p : Int) (front back : List Event) (sql : String)
      (answer : Response),
      (reducePrecision exec fuel s table p options limit).trace
          = front ++ .probe q sql answer :: back →
        truthy answer.err = true →
          back = [] ∧
            (reducePrecision exec fuel s table p options limit).result
              = some (.callback answer.err q)) := by
  constructor
  · intro s fuel herr
    exact reducePrecision_stop exec fuel s table q options limit _ _
      (probeCallback_of_error _ herr) (exceedsLimit_null limit)
  · intro fuel s p front back sql answer htrace herr
    exact reducePrecision_error_last exec table options limit fuel s p front back q sql answer
      htrace herr

/-- Witness for C4: a database that refuses every query. -/
theorem reducePrecision_error_witness :
    truthy (failingExec () (countSql "features" 3 samplePrepared)).1.err = true ∧
      reducePrecision failingExec (0 + 1) () "features" 3 samplePrepared 5 =
        ⟨[.probe 3 (countSql "features" 3 samplePrepared)
            (failingExec () (countSql "features" 3 samplePrepared)).1],
          (failingExec () (countSql "features" 3 samplePrepared)).2,
          some (.callback (failingExec () (countSql "features" 3 samplePrepared)).1.err 3)⟩ :=
  ⟨by decide,
    (reducePrecision_error failingExec "features" samplePrepared 5 3).1 () 0 (by decide)⟩

/-- C5: in a run of `aggregate`, a distinct-count probe answered with an error
makes the callback of `aggregate` receive that error and no second argument, and
no final grouped query is issued; in particular, when the first probe is
answered with an error, it is the only query of the run. -/
theorem aggregate_probe_error {σ : Type} (exec : Executor σ)
    (parseWhere : JSVal → Except JSVal JSVal) {β : Type}
    (parseGeometry : JSVal → Option (Box β)) (render : β → String)
    (s : σ) (table : String) (limit precision : Int) (options : Options) :
    (∀ (fuel : Nat) (q : Int) (sql : String) (answer : Response),
      Event.probe q sql answer ∈
          (aggregate exec parseWhere parseGeometry render fuel s table limit precision options).trace →
        truthy answer.err = true →
          (aggregate exec parseWhere parseGeometry render fuel s table limit precision options).outcome
              = some (.callback answer.err none) ∧
            ∀ sql1 answer1, Event.final sql1 answer1 ∉
              (aggregate exec parseWhere parseGeometry render fuel s table limit precision
                options).trace) ∧
    (∀ (fuel : Nat) (prepared : Options),
      prepareFilters parseWhere parseGeometry render options = .ok prepared →
        truthy (exec s (countSql table precision prepared)).1.err = true →
          aggregate exec parseWhere parseGeometry render (fuel + 1) s table limit precision options =
            ⟨[.probe precision (countSql table precision prepared)
                (exec s (countSql table precision prepared)).1],
              (exec s (countSql table precision prepared)).2, prepared,
              some (.callback (exec s (countSql table precision prepared)).1.err none)⟩) := by
  constructor
  · intro fuel q sql answer hmem herr
    cases hprep : prepareFilters parseWhere parseGeometry render options with
    | error e =>
      rw [aggregate_of_parse_error exec parseWhere parseGeometry render fuel s table limit precision
        options e hprep] at hmem
      simp at hmem
    | ok prepared =>
      have key : ∀ tr : List Event,
          tr = (reducePrecision exec fuel s table precision prepared limit).trace →
          Event.probe q sql answer ∈ tr →
          (reducePrecision exec fuel s table precision prepared limit).result
            = some (.callback answer.err q) := by
        intro tr htr hin
        obtain ⟨front, back, hsplit⟩ := List.append_of_mem hin
        exact (reducePrecision_error_last exec table prepared limit fuel s precision front back
          q sql answer (htr ▸ hsplit) herr).2
      have probes : ∀ sql1 answer1, Event.final sql1 answer1 ∉
          (reducePrecision exec fuel s table precision prepared limit).trace := by
        intro sql1 answer1 hin
        obtain ⟨r, a, hr, _⟩ := reducePrecision_trace_probes exec table prepared limit fuel s
          precision _ hin
        exact absurd hr (by simp)
      cases hres : (reducePrecision exec fuel s table precision prepared limit).result with
      | none =>
        rw [aggregate_of_pending exec parseWhere parseGeometry render fuel s table limit precision
          options prepared hprep hres] at hmem
        have := key _ rfl hmem
        rw [hres] at this
        exact absurd this (by simp)
      | some out =>
        cases out with
        | threw e =>
          rw [aggregate_of_probe_threw exec parseWhere parseGeometry render fuel s table limit
            precision options prepared e hprep hres] at hmem
          have := key _ rfl hmem
          rw [hres] at this
          exact absurd this (by simp)
        | callback err q1 =>
          by_cases herr1 : truthy err = true
          · rw [aggregate_of_probe_error exec parseWhere parseGeometry render fuel s table limit
              precision options prepared err q1 hprep hres herr1] at hmem ⊢
            have := key _ rfl hmem
            rw [hres] at this
            simp only [Option.some.injEq, ReduceOutcome.callback.injEq] at this
            refine ⟨by rw [this.1], probes⟩
          · have herr2 : truthy err = false := by simpa using herr1
            rw [aggregate_of_reduced exec parseWhere parseGeometry render fuel s table limit
              precision options prepared err q1 hprep hres herr2] at hmem
            simp only [List.mem_append, List.mem_singleton] at hmem
            rcases hmem with hmem | hmem
            · have := key _ rfl hmem
              rw [hres] at this
              simp only [Option.some.injEq, ReduceOutcome.callback.injEq] at this
              rw [this.1, herr] at herr2
              exact absurd herr2 (by simp)
            · exact absurd hmem (by simp)
  · intro fuel prepared hprep herr
    have hrun := reducePrecision_stop exec fuel s table precision prepared limit _ _
      (probeCallback_of_error _ herr) (exceedsLimit_null limit)
    have hres : (reducePrecision exec (fuel + 1) s table precision prepared limit).result
        = some (.callback (exec s (countSql table precision prepared)).1.err precision) := by
      rw [hrun]
    rw [aggregate_of_probe_error exec parseWhere parseGeometry render (fuel + 1) s table limit
      precision options prepared _ precision hprep hres herr, hrun]

/-- Witness for C5: the first probe of the sample call is answered with an error. -/
theorem aggregate_probe_error_witness :
    (prepareFilters sampleParseWhere sampleParseGeometry toStr sampleOptions = .ok samplePrepared ∧
      truthy (failingExec () (countSql "features" 3 samplePrepared)).1.err = true) ∧
      aggregate failingExec sampleParseWhere sampleParseGeometry toStr (0 + 1) () "features" 5 3
          sampleOptions =
        ⟨[.probe 3 (countSql "features" 3 samplePrepared)
            (failingExec () (countSql "features" 3 samplePrepared)).1],
          (failingExec () (countSql "features" 3 samplePrepared)).2, samplePrepared,
          some (.callback (failingExec () (countSql "features" 3 samplePrepared)).1.err none)⟩ :=
  ⟨⟨by rfl, by decide⟩,
    (aggregate_probe_error failingExec sampleParseWhere sampleParseGeometry toStr () "features" 5 3
      sampleOptions).2 0 samplePrepared (by rfl) (by decide)⟩

/-- C6 does not hold of the code when geohashes are NULL: on table `nulls`, whose five
rows hold the geohashes `9q8yyk`, `9q8yym`, `dr5reg` and two NULLs, `aggregate`
with limit 2 and precision 3 probes once, is told 2 distinct buckets and accepts
precision 3; the final query carries the same bucket expression and (empty)
filter clause as that probe, yet returns 3 rows, and the callback receives a
mapping with the 3 keys `9q`, `dr` and `null`, one more than the limit. -/
theorem aggregate_null_group_exceeds_limit :
    (aggregate nullsExec sampleParseWhere sampleParseGeometry toStr 4 () "nulls" 2 3
        bareOptions).trace
        = [.probe 3
            ("select count(DISTINCT(" ++ "substring(geohash,0,3)"
              ++ ")) as count from \"nulls\"")
            ⟨.null, .result [⟨.undefined, .str "2"⟩] "SELECT"⟩,
          .final
            ("SELECT count(id) as count, " ++ "substring(geohash,0,3)"
              ++ " as geohash from \"nulls\"" ++ " GROUP BY " ++ "substring(geohash,0,3)")
            ⟨.null, .result [⟨.str "9q", .str "2"⟩, ⟨.str "dr", .str "1"⟩, ⟨.null, .str "2"⟩]
              "SELECT"⟩] ∧
      (aggregate nullsExec sampleParseWhere sampleParseGeometry toStr 4 () "nulls" 2 3
        bareOptions).outcome
        = some (.callback .null (some (.mapping
            [("9q", .str "2"), ("dr", .str "1"), ("null", .str "2")]))) ∧
      (2 : Int) < (Mapping.keys [("9q", JSVal.str "2"), ("dr", .str "1"),
        ("null", .str "2")]).length := by
  decide

/-- C7: a precision `q ≥ 1` reported by the reducer makes the bucket expression
of the final query the text `substring(geohash,0,q)`; read with the 1-based
positions of SQL `substring(string, start, count)`, that expression selects the
first `q - 1` characters of the stored geohash. -/
theorem geoHashSelect_truncates {σ : Type} (exec : Executor σ) (fuel : Nat) (s : σ)
    (table : String) (limit precision : Int) (options : Options) (err : JSVal) (q : Int)
    (hred : (reducePrecision exec fuel s table precision options limit).result
      = some (.callback err q))
    (hq : 1 ≤ q) :
    geoHashSelect q precision = "substring(geohash,0," ++ toString q ++ ")" ∧
      ∀ stored : String,
        sqlSubstring stored 0 q = some (String.mk (stored.data.take (q - 1).toNat)) ∧
          (String.mk (stored.data.take (q - 1).toNat)).length
            = min (q - 1).toNat stored.length := by
  have hle := reducePrecision_result_le exec table options limit fuel s precision err q hred
  refine ⟨geoHashSelect_of_le hle, ?_⟩
  intro stored
  refine ⟨?_, by simp only [String.length, List.length_take]⟩
  have hcount : ¬ q < 0 := by omega
  simp only [sqlSubstring, hcount, if_false]
  rw [sqlSubstringFrom_zero (0 + q) stored.data 1 (by omega)]
  have : (0 + q - 1).toNat = (q - 1).toNat := by
    congr 1
    omega
  rw [this]

/-- Witness for C7: the sample run, with reduced precision 2. -/
theorem geoHashSelect_truncates_witness :
    ((reducePrecision sampleExec 4 () "features" 3 samplePrepared 5).result
        = some (.callback .null 2) ∧ (1 : Int) ≤ 2) ∧
      geoHashSelect 2 3 = "substring(geohash,0," ++ toString (2 : Int) ++ ")" ∧
      ∀ stored : String,
        sqlSubstring stored 0 2 = some (String.mk (stored.data.take ((2 : Int) - 1).toNat)) ∧
          (String.mk (stored.data.take ((2 : Int) - 1).toNat)).length
            = min ((2 : Int) - 1).toNat stored.length :=
  ⟨⟨by decide, by decide⟩,
    geoHashSelect_truncates sampleExec 4 () "features" 5 3 samplePrepared .null 2 (by decide)
      (by decide)⟩

/-- C8: when the reducer succeeds with precision `q`, `aggregate` issues one
final query, after the probes; its text is
`SELECT count(id) as count, E as geohash from "T"`, the filter clause, then
` GROUP BY E` with the same bucket expression `E`, and the filter clause is
empty, `whereFilter`, `whereFilter AND geomFilter` or ` WHERE geomFilter`
according to which filters are set. -/
theorem aggregate_final_query_text {σ : Type} (exec : Executor σ)
    (parseWhere : JSVal → Except JSVal JSVal) {β : Type}
    (parseGeometry : JSVal → Option (Box β)) (render : β → String)
    (fuel : Nat) (s : σ) (table : String) (limit precision : Int) (options prepared : Options)
    (err : JSVal) (q : Int)
    (hprep : prepareFilters parseWhere parseGeometry render options = .ok prepared)
    (hred : (reducePrecision exec fuel s table precision prepared limit).result
      = some (.callback err q))
    (herr : truthy err = false) :
    ∃ (clause : String) (answer : Response),
      (aggregate exec parseWhere parseGeometry render fuel s table limit precision options).trace
          = (reducePrecision exec fuel s table precision prepared limit).trace ++
            [.final
              ("SELECT count(id) as count, " ++ ("substring(geohash,0," ++ toString q ++ ")")
                ++ " as geohash from \"" ++ table ++ "\"" ++ clause
                ++ " GROUP BY " ++ ("substring(geohash,0," ++ toString q ++ ")"))
              answer] ∧
        (aggregate exec parseWhere parseGeometry render fuel s table limit precision
            options).trace.filter Event.isFinal
          = [.final
              ("SELECT count(id) as count, " ++ ("substring(geohash,0," ++ toString q ++ ")")
                ++ " as geohash from \"" ++ table ++ "\"" ++ clause
                ++ " GROUP BY " ++ ("substring(geohash,0," ++ toString q ++ ")"))
              answer] ∧
        (truthy prepared.whereFilter = false → truthy prepared.geomFilter = false →
          clause = "") ∧
        (truthy prepared.whereFilter = true → truthy prepared.geomFilter = false →
          clause = toStr prepared.whereFilter) ∧
        (truthy prepared.whereFilter = true → truthy prepared.geomFilter = true →
          clause = toStr prepared.whereFilter ++ " AND " ++ toStr prepared.geomFilter) ∧
        (truthy prepared.whereFilter = false → truthy prepared.geomFilter = true →
          clause = " WHERE " ++ toStr prepared.geomFilter) := by
  have hle := reducePrecision_result_le exec table prepared limit fuel s precision err q hred
  have hrun := aggregate_of_reduced exec parseWhere parseGeometry render fuel s table limit precision
    options prepared err q hprep hred herr
  rw [geoHashSelect_of_le hle, finalSql_text] at hrun
  have hprobes : (reducePrecision exec fuel s table precision prepared limit).trace.filter
      Event.isFinal = [] := by
    rw [List.filter_eq_nil_iff]
    intro e he
    obtain ⟨r, a, hr, _⟩ := reducePrecision_trace_probes exec table prepared limit fuel s
      precision e he
    rw [hr]
    simp [Event.isFinal]
  refine ⟨specFilterClause prepared, _, by rw [hrun], ?_, ?_, ?_, ?_, ?_⟩
  · rw [hrun]
    simp only [List.filter_append, hprobes, List.nil_append]
    simp [Event.isFinal]
  · intro h1 h2; simp [specFilterClause, h1, h2]
  · intro h1 h2; simp [specFilterClause, h1, h2]
  · intro h1 h2; simp [specFilterClause, h1, h2]
  · intro h1 h2; simp [specFilterClause, h1, h2]

/-- Witness for C8: the sample run, with a where filter and no geometry filter. -/
theorem aggregate_final_query_text_witness :
    (prepareFilters sampleParseWhere sampleParseGeometry toStr sampleOptions = .ok samplePrepared ∧
      (reducePrecision sampleExec 4 () "features" 3 samplePrepared 5).result
        = some (.callback .null 2) ∧
      truthy .null = false) ∧
    ∃ (clause : String) (answer : Response),
      (aggregate sampleExec sampleParseWhere sampleParseGeometry toStr 4 () "features" 5 3
          sampleOptions).trace
          = (reducePrecision sampleExec 4 () "features" 3 samplePrepared 5).trace ++
            [.final
              ("SELECT count(id) as count, "
                ++ ("substring(geohash,0," ++ toString (2 : Int) ++ ")")
                ++ " as geohash from \"" ++ "features" ++ "\"" ++ clause
                ++ " GROUP BY " ++ ("substring(geohash,0," ++ toString (2 : Int) ++ ")"))
              answer] ∧
        (aggregate sampleExec sampleParseWhere sampleParseGeometry toStr 4 () "features" 5 3
            sampleOptions).trace.filter Event.isFinal
          = [.final
              ("SELECT count(id) as count, "
                ++ ("substring(geohash,0," ++ toString (2 : Int) ++ ")")
                ++ " as geohash from \"" ++ "features" ++ "\"" ++ clause
                ++ " GROUP BY " ++ ("substring(geohash,0," ++ toString (2 : Int) ++ ")"))
              answer] ∧
        (truthy samplePrepared.whereFilter = false → truthy samplePrepared.geomFilter = false →
          clause = "") ∧
        (truthy samplePrepared.whereFilter = true → truthy samplePrepared.geomFilter = false →
          clause = toStr samplePrepared.whereFilter) ∧
        (truthy samplePrepared.whereFilter = true → truthy samplePrepared.geomFilter = true →
          clause = toStr samplePrepared.whereFilter ++ " AND "
            ++ toStr samplePrepared.geomFilter) ∧
        (truthy samplePrepared.whereFilter = false → truthy samplePrepared.geomFilter = true →
          clause = " WHERE " ++ toStr samplePrepared.geomFilter) :=
  ⟨⟨by rfl, by decide, by decide⟩,
    aggregate_final_query_text sampleExec sampleParseWhere sampleParseGeometry toStr 4 () "features"
      5 3 sampleOptions samplePrepared .null 2 (by rfl) (by decide) (by decide)⟩

/-- Counterexample to C9 as stated: a final query whose one row carries the
geohash `__proto__` leaves the mapping without any key. -/
theorem aggregate_proto_key_counterexample :
    (aggregate protoExec sampleParseWhere sampleParseGeometry toStr 4 () "features" 5 3
        bareOptions).trace
        = [.probe 3 (countSql "features" 3 (resetFilters bareOptions))
            ⟨.null, .result [⟨.undefined, .str "1"⟩] "SELECT"⟩,
          .final (finalSql "features" (geoHashSelect 3 3) (resetFilters bareOptions))
            ⟨.null, .result [⟨.str "__proto__", .str "3"⟩] "SELECT"⟩] ∧
      (aggregate protoExec sampleParseWhere sampleParseGeometry toStr 4 () "features" 5 3
        bareOptions).outcome = some (.callback .null (some (.mapping []))) := by
  decide

/-- C9, amended: when the final query succeeds with a non-empty sequence of rows
none of whose geohash is the property name `__proto__`, the callback of
`aggregate` receives the (falsy) error of the query and a mapping whose keys are
exactly the geohash values of the rows, each once, and whose value at the
geohash of a row that no later row shares is the count of that row. -/
theorem aggregate_folds_rows {σ : Type} (exec : Executor σ)
    (parseWhere : JSVal → Except JSVal JSVal) {β : Type}
    (parseGeometry : JSVal → Option (Box β)) (render : β → String)
    (fuel : Nat) (s : σ) (table : String) (limit precision : Int) (options prepared : Options)
    (err : JSVal) (q : Int) (ferr : JSVal) (rows : List Row) (command : String)
    (hprep : prepareFilters parseWhere parseGeometry render options = .ok prepared)
    (hred : (reducePrecision exec fuel s table precision prepared limit).result
      = some (.callback err q))
    (herr : truthy err = false)
    (hanswer : (exec (reducePrecision exec fuel s table precision prepared limit).state
        (finalSql table (geoHashSelect q precision) prepared)).1 = ⟨ferr, .result rows command⟩)
    (hferr : truthy ferr = false) (hrows : rows ≠ [])
    (hplain : ∀ row ∈ rows, toStr row.geohash ≠ "__proto__") :
    ∃ agg : Mapping,
      (aggregate exec parseWhere parseGeometry render fuel s table limit precision options).outcome
          = some (.callback ferr (some (.mapping agg))) ∧
        (∀ key, key ∈ Mapping.keys agg ↔ ∃ row ∈ rows, toStr row.geohash = key) ∧
        (Mapping.keys agg).Nodup ∧
        (∀ (front back : List Row) (row : Row), rows = front ++ row :: back →
          (∀ r ∈ back, toStr r.geohash ≠ toStr row.geohash) →
            Mapping.get agg (toStr row.geohash) = some row.count) := by
  have hrun := aggregate_of_reduced exec parseWhere parseGeometry render fuel s table limit precision
    options prepared err q hprep hred herr
  refine ⟨setRows [] rows, ?_, ?_, ?_, ?_⟩
  · rw [hrun]
    simp only
    rw [hanswer, finalCallback_of_rows ferr rows command hferr hrows,
      foldRows_of_plain [] rows hplain]
  · intro key
    rw [setRows_mem_keys]
    simp [Mapping.keys]
  · exact setRows_nodup_keys rows [] (by simp [Mapping.keys])
  · intro front back row hsplit hlast
    rw [hsplit]
    exact setRows_get_last [] front back row hlast

/-- Witness for the amended C9: the sample run, whose final query returns two
rows. -/
theorem aggregate_folds_rows_witness :
    (prepareFilters sampleParseWhere sampleParseGeometry toStr sampleOptions = .ok samplePrepared ∧
      (reducePrecision sampleExec 4 () "features" 3 samplePrepared 5).result
        = some (.callback .null 2) ∧
      (sampleExec (reducePrecision sampleExec 4 () "features" 3 samplePrepared 5).state
          (finalSql "features" (geoHashSelect 2 3) samplePrepared)).1
        = ⟨.null, .result [⟨.str "9", .str "700"⟩, ⟨.str "d", .str "300"⟩] "SELECT"⟩ ∧
      (∀ row ∈ [(⟨.str "9", .str "700"⟩ : Row), ⟨.str "d", .str "300"⟩],
        toStr row.geohash ≠ "__proto__")) ∧
    ∃ agg : Mapping,
      (aggregate sampleExec sampleParseWhere sampleParseGeometry toStr 4 () "features" 5 3
          sampleOptions).outcome
          = some (.callback .null (some (.mapping agg))) ∧
        (∀ key, key ∈ Mapping.keys agg ↔
          ∃ row ∈ [(⟨.str "9", .str "700"⟩ : Row), ⟨.str "d", .str "300"⟩],
            toStr row.geohash = key) ∧
        (Mapping.keys agg).Nodup ∧
        (∀ (front back : List Row) (row : Row),
          [(⟨.str "9", .str "700"⟩ : Row), ⟨.str "d", .str "300"⟩] = front ++ row :: back →
          (∀ r ∈ back, toStr r.geohash ≠ toStr row.geohash) →
            Mapping.get agg (toStr row.geohash) = some row.count) :=
  ⟨⟨by rfl, by decide, by decide, by decide⟩,
    aggregate_folds_rows sampleExec sampleParseWhere sampleParseGeometry toStr 4 () "features" 5 3
      sampleOptions samplePrepared .null 2 .null
      [⟨.str "9", .str "700"⟩, ⟨.str "d", .str "300"⟩] "SELECT" (by rfl) (by decide)
      (by decide) (by decide) (by decide) (by decide) (by decide)⟩

/-- C10: when the final query reports an error, or answers without rows (an
empty row sequence, or no result object), the callback of `aggregate` receives
the error and the result of the executor as they are, and no mapping. -/
theorem aggregate_passes_through {σ : Type} (exec : Executor σ)
    (parseWhere : JSVal → Except JSVal JSVal) {β : Type}
    (parseGeometry : JSVal → Option (Box β)) (render : β → String)
    (fuel : Nat) (s : σ) (table : String) (limit precision : Int) (options prepared : Options)
    (err : JSVal) (q : Int) (answer : Response)
    (hprep : prepareFilters parseWhere parseGeometry render options = .ok prepared)
    (hred : (reducePrecision exec fuel s table precision prepared limit).result
      = some (.callback err q))
    (herr : truthy err = false)
    (hanswer : (exec (reducePrecision exec fuel s table precision prepared limit).state
        (finalSql table (geoHashSelect q precision) prepared)).1 = answer)
    (hcase : truthy answer.err = true ∨
      ∀ rows command, answer.res = .result rows command → rows = []) :
    (aggregate exec parseWhere parseGeometry render fuel s table limit precision options).outcome
        = some (.callback answer.err (some (.raw answer.res))) ∧
      ∀ (e : JSVal) (agg : Mapping),
        (aggregate exec parseWhere parseGeometry render fuel s table limit precision options).outcome
          ≠ some (.callback e (some (.mapping agg))) := by
  have hrun := aggregate_of_reduced exec parseWhere parseGeometry render fuel s table limit precision
    options prepared err q hprep hred herr
  have hout :
      (aggregate exec parseWhere parseGeometry render fuel s table limit precision options).outcome
        = some (.callback answer.err (some (.raw answer.res))) := by
    rw [hrun]
    simp only
    rw [hanswer, finalCallback_passthrough answer hcase]
  refine ⟨hout, ?_⟩
  intro e agg h
  rw [hout] at h
  simp at h

/-- Witness for C10: an empty table, and a database failing on the grouped query. -/
theorem aggregate_passes_through_witness :
    ((prepareFilters sampleParseWhere sampleParseGeometry toStr sampleOptions = .ok samplePrepared ∧
        (reducePrecision emptyExec 4 () "features" 3 samplePrepared 5).result
          = some (.callback .null 3)) ∧
      (aggregate emptyExec sampleParseWhere sampleParseGeometry toStr 4 () "features" 5 3
          sampleOptions).outcome
        = some (.callback .null (some (.raw (.result [] "SELECT"))))) ∧
    ((reducePrecision brokenGroupExec 4 () "features" 3 samplePrepared 5).result
          = some (.callback .null 3) ∧
      (aggregate brokenGroupExec sampleParseWhere sampleParseGeometry toStr 4 () "features" 5 3
          sampleOptions).outcome
        = some (.callback (.error "statement timeout") (some (.raw .undefined)))) :=
  ⟨⟨⟨by rfl, by decide⟩,
      (aggregate_passes_through emptyExec sampleParseWhere sampleParseGeometry toStr 4 () "features"
        5 3 sampleOptions samplePrepared .null 3 ⟨.null, .result [] "SELECT"⟩ (by rfl)
        (by decide) (by decide) (by decide)
        (Or.inr (by intro rows command h; injection h with h1 _; exact h1.symm))).1⟩,
    ⟨by decide,
      (aggregate_passes_through brokenGroupExec sampleParseWhere sampleParseGeometry toStr 4 ()
        "features" 5 3 sampleOptions samplePrepared .null 3
        ⟨.error "statement timeout", .undefined⟩ (by rfl) (by decide) (by decide) (by decide)
        (Or.inl (by decide))).1⟩⟩

/-! ## The normalization of the where fragment -/

theorem replaceIlike_cons_of_ne (c : Char) (rest : List Char) (h : c ≠ 'i') :
    replaceIlike (c :: rest) = c :: replaceIlike rest := by
  rw [replaceIlike.eq_2]
  intro rest1 h1 _
  exact h h1

theorem replaceIlike_where (cs : List Char) :
    replaceIlike (" WHERE ".data ++ cs) = " WHERE ".data ++ replaceIlike cs := by
  have h : " WHERE ".data = [' ', 'W', 'H', 'E', 'R', 'E', ' '] := by decide
  rw [h]
  simp only [List.cons_append, List.nil_append]
  rw [replaceIlike_cons_of_ne _ _ (by decide), replaceIlike_cons_of_ne _ _ (by decide),
    replaceIlike_cons_of_ne _ _ (by decide), replaceIlike_cons_of_ne _ _ (by decide),
    replaceIlike_cons_of_ne _ _ (by decide), replaceIlike_cons_of_ne _ _ (by decide),
    replaceIlike_cons_of_ne _ _ (by decide)]

theorem removePercent_append (front back : List Char) :
    removePercent (front ++ back) = removePercent front ++ removePercent back := by
  simp [removePercent]

theorem normalizeWhere_where (clause : String) :
    normalizeWhere (" WHERE " ++ clause) = " WHERE " ++ normalizeWhere clause := by
  have h : removePercent " WHERE ".data = " WHERE ".data := by decide
  apply String.ext
  simp only [normalizeWhere, String.data_append]
  rw [replaceIlike_where, removePercent_append, h]

theorem percent_not_mem_removePercent (cs : List Char) : '%' ∉ removePercent cs := by
  intro h
  simp [removePercent] at h

theorem percent_not_mem_normalizeWhere (text : String) : '%' ∉ (normalizeWhere text).data :=
  percent_not_mem_removePercent _

theorem removePercent_of_not_mem (cs : List Char) (h : '%' ∉ cs) : removePercent cs = cs := by
  simp only [removePercent, List.filter_eq_self]
  intro c hc
  have : c ≠ '%' := fun e => h (e ▸ hc)
  simpa using this

theorem percent_not_mem_replaceIlike (cs : List Char) (h : '%' ∉ cs) :
    '%' ∉ replaceIlike cs := by
  induction cs using replaceIlike.induct with
  | case1 rest ih =>
    rw [replaceIlike.eq_1]
    have hrest : '%' ∉ rest := fun hm => h (by simp [hm])
    simp only [List.mem_cons, not_or]
    exact ⟨by decide, ih hrest⟩
  | case2 c rest hno ih =>
    rw [replaceIlike.eq_2 c rest hno]
    have hc : '%' ≠ c := fun e => h (by rw [e]; exact List.mem_cons_self _ _)
    have hrest : '%' ∉ rest := fun hm => h (by simp [hm])
    simp only [List.mem_cons, not_or]
    exact ⟨hc, ih hrest⟩
  | case3 => simp [replaceIlike]

/-- The head of the replaced text, when it is not the `=` of a replacement, is
the head of the text, which then does not start with `ilike`. -/
theorem replaceIlike_head (cs out : List Char) (x : Char)
    (h : replaceIlike cs = x :: out) (hx : x ≠ '=') :
    ∃ rest, cs = x :: rest ∧ out = replaceIlike rest ∧
      ∀ rest1, x = 'i' → rest = 'l' :: 'i' :: 'k' :: 'e' :: rest1 → False := by
  induction cs using replaceIlike.induct with
  | case1 rest _ =>
    rw [replaceIlike.eq_1] at h
    injection h with h1 _
    exact absurd h1.symm hx
  | case2 c rest hno _ =>
    rw [replaceIlike.eq_2 c rest hno] at h
    injection h with h1 h2
    subst h1
    exact ⟨rest, rfl, h2.symm, hno⟩
  | case3 => simp [replaceIlike] at h

theorem replaceIlike_not_starts (cs out : List Char) :
    replaceIlike cs ≠ 'i' :: 'l' :: 'i' :: 'k' :: 'e' :: out := by
  intro h
  obtain ⟨r1, h1, o1, hno⟩ := replaceIlike_head cs _ 'i' h (by decide)
  obtain ⟨r2, h2, o2, _⟩ := replaceIlike_head r1 _ 'l' o1.symm (by decide)
  obtain ⟨r3, h3, o3, _⟩ := replaceIlike_head r2 _ 'i' o2.symm (by decide)
  obtain ⟨r4, h4, o4, _⟩ := replaceIlike_head r3 _ 'k' o3.symm (by decide)
  obtain ⟨r5, h5, _, _⟩ := replaceIlike_head r4 _ 'e' o4.symm (by decide)
  exact hno r5 rfl (by rw [h2, h3, h4, h5])

/-- The replaced text holds no occurrence of `ilike`. -/
theorem replaceIlike_no_ilike (front : List Char) :
    ∀ (cs back : List Char),
      replaceIlike cs ≠ front ++ 'i' :: 'l' :: 'i' :: 'k' :: 'e' :: back := by
  induction front with
  | nil => intro cs back; simpa using replaceIlike_not_starts cs back
  | cons x front ih =>
    intro cs back h
    induction cs using replaceIlike.induct with
    | case1 rest _ =>
      rw [replaceIlike.eq_1] at h
      injection h with _ h2
      exact ih rest back h2
    | case2 c rest hno _ =>
      rw [replaceIlike.eq_2 c rest hno] at h
      injection h with _ h2
      exact ih rest back h2
    | case3 => simp [replaceIlike] at h

/-! ## The filters that `aggregate` prepares -/

theorem aggregate_options_of_prepared {σ : Type} (exec : Executor σ)
    (parseWhere : JSVal → Except JSVal JSVal) {β : Type}
    (parseGeometry : JSVal → Option (Box β)) (render : β → String)
    (fuel : Nat) (s : σ) (table : String) (limit precision : Int) (options prepared : Options)
    (hprep : prepareFilters parseWhere parseGeometry render options = .ok prepared) :
    (aggregate exec parseWhere parseGeometry render fuel s table limit precision options).options
      = prepared := by
  cases hres : (reducePrecision exec fuel s table precision prepared limit).result with
  | none =>
    rw [aggregate_of_pending exec parseWhere parseGeometry render fuel s table limit precision options
      prepared hprep hres]
  | some out =>
    cases out with
    | threw e =>
      rw [aggregate_of_probe_threw exec parseWhere parseGeometry render fuel s table limit precision
        options prepared e hprep hres]
    | callback err q =>
      by_cases herr : truthy err = true
      · rw [aggregate_of_probe_error exec parseWhere parseGeometry render fuel s table limit precision
          options prepared err q hprep hres herr]
      · rw [aggregate_of_reduced exec parseWhere parseGeometry render fuel s table limit precision
          options prepared err q hprep hres (by simpa using herr)]

theorem aggregate_congr_prepare {σ : Type} (exec : Executor σ)
    (parseWhere1 parseWhere2 : JSVal → Except JSVal JSVal)
    {β : Type}
    (parseGeometry1 parseGeometry2 : JSVal → Option (Box β)) (render1 render2 : β → String)
    (fuel : Nat) (s : σ) (table : String) (limit precision : Int) (options1 options2 : Options)
    (hprep : prepareFilters parseWhere1 parseGeometry1 render1 options1
      = prepareFilters parseWhere2 parseGeometry2 render2 options2)
    (hreset : resetFilters options1 = resetFilters options2) :
    aggregate exec parseWhere1 parseGeometry1 render1 fuel s table limit precision options1
      = aggregate exec parseWhere2 parseGeometry2 render2 fuel s table limit precision options2 := by
  simp only [aggregate, hprep, hreset]

theorem buildWhereFilter_sentinel (parseWhere : JSVal → Except JSVal JSVal) :
    buildWhereFilter parseWhere (.str "1=1") = .ok (.str " WHERE 1=1") := by
  have h : normalizeWhere (" WHERE " ++ toStr (.str "1=1")) = " WHERE 1=1" := by decide
  simp only [buildWhereFilter]
  rw [h]
  simp [truthy]

theorem buildWhereFilter_absent (parseWhere : JSVal → Except JSVal JSVal) (where_ : JSVal)
    (h : truthy where_ = false) : buildWhereFilter parseWhere where_ = .ok .null := by
  simp [buildWhereFilter, h]

theorem buildWhereFilter_parsed (parseWhere : JSVal → Except JSVal JSVal)
    (where_ clause : JSVal) (h : truthy where_ = true) (hne : where_ ≠ .str "1=1")
    (hparse : parseWhere where_ = .ok clause) :
    buildWhereFilter parseWhere where_
      = .ok (.str (" WHERE " ++ normalizeWhere (toStr clause))) := by
  simp only [buildWhereFilter, h, if_true, hne, ne_eq, not_false_eq_true, hparse]
  rw [normalizeWhere_where]

theorem buildWhereFilter_rejected (parseWhere : JSVal → Except JSVal JSVal)
    (where_ e : JSVal) (h : truthy where_ = true) (hne : where_ ≠ .str "1=1")
    (hparse : parseWhere where_ = .error e) :
    buildWhereFilter parseWhere where_ = .error e := by
  simp only [buildWhereFilter, h, if_true, hne, ne_eq, not_false_eq_true, hparse]

theorem prepareFilters_of_where (parseWhere : JSVal → Except JSVal JSVal)
    {β : Type}
    (parseGeometry : JSVal → Option (Box β)) (render : β → String) (options : Options) (whereFilter : JSVal)
    (h : buildWhereFilter parseWhere options.where_ = .ok whereFilter) :
    prepareFilters parseWhere parseGeometry render options
      = .ok ⟨options.where_, options.geometry, whereFilter,
          buildGeomFilter render (parseGeometry options.geometry)⟩ := by
  simp only [prepareFilters, resetFilters, h]

theorem prepareFilters_of_rejected (parseWhere : JSVal → Except JSVal JSVal)
    {β : Type}
    (parseGeometry : JSVal → Option (Box β)) (render : β → String) (options : Options) (e : JSVal)
    (h : buildWhereFilter parseWhere options.where_ = .error e) :
    prepareFilters parseWhere parseGeometry render options = .error e := by
  simp only [prepareFilters, resetFilters, h]

/-- The where fragment of a prepared call is absent or free of `%`. -/
theorem buildWhereFilter_no_percent (parseWhere : JSVal → Except JSVal JSVal)
    (where_ : JSVal) (fragment : String)
    (h : buildWhereFilter parseWhere where_ = .ok (.str fragment)) :
    '%' ∉ fragment.data := by
  simp only [buildWhereFilter] at h
  split at h
  · split at h
    · split at h
      · exact absurd h (by simp)
      · injection h with h1
        injection h1 with h2
        rw [← h2]
        exact percent_not_mem_normalizeWhere _
    · injection h with h1
      injection h1 with h2
      rw [← h2]
      exact percent_not_mem_normalizeWhere _
  · injection h with h1
    exact absurd h1 (by simp)

/-- C11: when `options.where` is the string `1=1` the where fragment is the literal
` WHERE 1=1`, and when `options.where` is falsy the fragment is absent (`null`);
in both cases the where parser is not consulted: the run is the same with any
other parser in its place, one that throws included. -/
theorem aggregate_where_sentinel_or_absent {σ : Type} (exec : Executor σ)
    (parseWhere otherParse : JSVal → Except JSVal JSVal) {β : Type}
    (parseGeometry : JSVal → Option (Box β)) (render : β → String)
    (fuel : Nat) (s : σ) (table : String) (limit precision : Int) (options : Options) :
    (options.where_ = .str "1=1" →
      (aggregate exec parseWhere parseGeometry render fuel s table limit precision
          options).options.whereFilter = .str " WHERE 1=1" ∧
        aggregate exec otherParse parseGeometry render fuel s table limit precision options
          = aggregate exec parseWhere parseGeometry render fuel s table limit precision options) ∧
    (truthy options.where_ = false →
      (aggregate exec parseWhere parseGeometry render fuel s table limit precision
          options).options.whereFilter = .null ∧
        aggregate exec otherParse parseGeometry render fuel s table limit precision options
          = aggregate exec parseWhere parseGeometry render fuel s table limit precision options) := by
  constructor
  · intro hw
    have h1 := prepareFilters_of_where parseWhere parseGeometry render options _
      (hw ▸ buildWhereFilter_sentinel parseWhere)
    have h2 := prepareFilters_of_where otherParse parseGeometry render options _
      (hw ▸ buildWhereFilter_sentinel otherParse)
    refine ⟨?_, aggregate_congr_prepare exec otherParse parseWhere parseGeometry parseGeometry render render
      fuel s table limit precision options options (h2.trans h1.symm) rfl⟩
    rw [aggregate_options_of_prepared exec parseWhere parseGeometry render fuel s table limit precision
      options _ h1]
  · intro hw
    have h1 := prepareFilters_of_where parseWhere parseGeometry render options _
      (buildWhereFilter_absent parseWhere _ hw)
    have h2 := prepareFilters_of_where otherParse parseGeometry render options _
      (buildWhereFilter_absent otherParse _ hw)
    refine ⟨?_, aggregate_congr_prepare exec otherParse parseWhere parseGeometry parseGeometry render render
      fuel s table limit precision options options (h2.trans h1.symm) rfl⟩
    rw [aggregate_options_of_prepared exec parseWhere parseGeometry render fuel s table limit precision
      options _ h1]

/-- Witness for C11: the sentinel call and a call without where option, each
compared with a parser that rejects everything. -/
theorem aggregate_where_sentinel_or_absent_witness :
    (sampleOptions.where_ = .str "1=1" ∧
      (aggregate sampleExec sampleParseWhere sampleParseGeometry toStr 4 () "features" 5 3
          sampleOptions).options.whereFilter = .str " WHERE 1=1" ∧
      aggregate sampleExec rejectingParseWhere sampleParseGeometry toStr 4 () "features" 5 3
          sampleOptions
        = aggregate sampleExec sampleParseWhere sampleParseGeometry toStr 4 () "features" 5 3
          sampleOptions) ∧
    (truthy staleOptions.where_ = false ∧
      (aggregate sampleExec sampleParseWhere sampleParseGeometry toStr 4 () "features" 5 3
          staleOptions).options.whereFilter = .null ∧
      aggregate sampleExec rejectingParseWhere sampleParseGeometry toStr 4 () "features" 5 3
          staleOptions
        = aggregate sampleExec sampleParseWhere sampleParseGeometry toStr 4 () "features" 5 3
          staleOptions) :=
  ⟨⟨by decide,
      (aggregate_where_sentinel_or_absent sampleExec sampleParseWhere rejectingParseWhere
        sampleParseGeometry toStr 4 () "features" 5 3 sampleOptions).1 (by decide)⟩,
    ⟨by decide,
      (aggregate_where_sentinel_or_absent sampleExec sampleParseWhere rejectingParseWhere
        sampleParseGeometry toStr 4 () "features" 5 3 staleOptions).2 (by decide)⟩⟩

/-- C12: for a where option that is neither falsy nor `1=1`, the where fragment is
` WHERE ` followed by the clause of the parser in which every `ilike` has been
replaced by `=` and then every `%` deleted; the clause `name ilike '%foo%'` gives
` WHERE name = 'foo'`; and no where fragment, whatever the where option, holds a
`%`. -/
theorem aggregate_where_parsed {σ : Type} (exec : Executor σ)
    (parseWhere : JSVal → Except JSVal JSVal) {β : Type}
    (parseGeometry : JSVal → Option (Box β)) (render : β → String)
    (fuel : Nat) (s : σ) (table : String) (limit precision : Int) (options : Options) :
    (∀ clause : JSVal, truthy options.where_ = true → options.where_ ≠ .str "1=1" →
      parseWhere options.where_ = .ok clause →
        (aggregate exec parseWhere parseGeometry render fuel s table limit precision
            options).options.whereFilter
          = .str (" WHERE " ++ String.mk (removePercent (replaceIlike (toStr clause).data)))) ∧
    (truthy options.where_ = true → options.where_ ≠ .str "1=1" →
      parseWhere options.where_ = .ok (.str "name ilike '%foo%'") →
        (aggregate exec parseWhere parseGeometry render fuel s table limit precision
            options).options.whereFilter = .str " WHERE name = 'foo'") ∧
    (∀ fragment : String,
      (aggregate exec parseWhere parseGeometry render fuel s table limit precision
          options).options.whereFilter = .str fragment → '%' ∉ fragment.data) := by
  have parsed : ∀ clause : JSVal, truthy options.where_ = true → options.where_ ≠ .str "1=1" →
      parseWhere options.where_ = .ok clause →
        (aggregate exec parseWhere parseGeometry render fuel s table limit precision
            options).options.whereFilter
          = .str (" WHERE " ++ normalizeWhere (toStr clause)) := by
    intro clause hw hne hparse
    rw [aggregate_options_of_prepared exec parseWhere parseGeometry render fuel s table limit precision
      options _ (prepareFilters_of_where parseWhere parseGeometry render options _
        (buildWhereFilter_parsed parseWhere _ clause hw hne hparse))]
  refine ⟨parsed, ?_, ?_⟩
  · intro hw hne hparse
    rw [parsed _ hw hne hparse]
    have h : " WHERE " ++ normalizeWhere (toStr (.str "name ilike '%foo%'"))
        = " WHERE name = 'foo'" := by decide
    rw [h]
  · intro fragment hfrag
    cases hb : buildWhereFilter parseWhere options.where_ with
    | error e =>
      rw [aggregate_of_parse_error exec parseWhere parseGeometry render fuel s table limit precision
        options e (prepareFilters_of_rejected parseWhere parseGeometry render options e hb)] at hfrag
      simp [resetFilters] at hfrag
    | ok whereFilter =>
      rw [aggregate_options_of_prepared exec parseWhere parseGeometry render fuel s table limit
        precision options _ (prepareFilters_of_where parseWhere parseGeometry render options _ hb)]
        at hfrag
      simp only at hfrag
      rw [hfrag] at hb
      exact buildWhereFilter_no_percent parseWhere _ fragment hb

/-- Witness for C12: a call whose parser returns `name ilike '%foo%'`. -/
theorem aggregate_where_parsed_witness :
    (truthy nameOptions.where_ = true ∧ nameOptions.where_ ≠ .str "1=1" ∧
      ilikeParseWhere nameOptions.where_ = .ok (.str "name ilike '%foo%'")) ∧
    (aggregate sampleExec ilikeParseWhere sampleParseGeometry toStr 4 () "features" 5 3
        nameOptions).options.whereFilter = .str " WHERE name = 'foo'" :=
  ⟨⟨by decide, by decide, by rfl⟩,
    (aggregate_where_parsed sampleExec ilikeParseWhere sampleParseGeometry toStr 4 () "features" 5 3
      nameOptions).2.1 (by decide) (by decide) (by rfl)⟩

/-- C13: when the where parser did not throw and the geometry parser returns a
box, the geometry fragment is the predicate `&&` between the stored geometry and
the literal `BOX3D(xmin ymin,xmax ymax)` cast to `box3d` with SRID 4326, each
field standing as JavaScript prints it, whatever the fields are (numbers with a
fraction included); for a box whose fields print as 0, 0, 10 and 10 it is
`BOX3D(0 0,10 10)`; when the geometry parser returns a falsy value the geometry
fragment is absent. -/
theorem aggregate_geometry_fragment {σ : Type} (exec : Executor σ)
    (parseWhere : JSVal → Except JSVal JSVal) {β : Type}
    (parseGeometry : JSVal → Option (Box β)) (render : β → String)
    (fuel : Nat) (s : σ) (table : String) (limit precision : Int) (options : Options) :
    (∀ (prepared : Options) (box : Box β),
      prepareFilters parseWhere parseGeometry render options = .ok prepared →
      parseGeometry options.geometry = some box →
        (aggregate exec parseWhere parseGeometry render fuel s table limit precision
            options).options.geomFilter
          = .str (" ST_GeomFromGeoJSON(feature->>'geometry') && ST_SetSRID('BOX3D("
              ++ render box.xmin ++ " " ++ render box.ymin ++ "," ++ render box.xmax ++ " "
              ++ render box.ymax ++ ")'::box3d,4326)") ∧
          (render box.xmin = "0" → render box.ymin = "0" → render box.xmax = "10" →
            render box.ymax = "10" →
            (aggregate exec parseWhere parseGeometry render fuel s table limit precision
                options).options.geomFilter
              = .str (" ST_GeomFromGeoJSON(feature->>'geometry') && "
                  ++ "ST_SetSRID('BOX3D(0 0,10 10)'::box3d,4326)"))) ∧
    (parseGeometry options.geometry = none →
      (aggregate exec parseWhere parseGeometry render fuel s table limit precision
          options).options.geomFilter = .null) := by
  constructor
  · intro prepared box hprep hbox
    have hgeom : prepared.geomFilter = buildGeomFilter render (some box) := by
      simp only [prepareFilters, resetFilters] at hprep
      split at hprep
      · exact absurd hprep (by simp)
      · injection hprep with h1
        rw [← h1, hbox]
    rw [aggregate_options_of_prepared exec parseWhere parseGeometry render fuel s table limit
      precision options prepared hprep, hgeom]
    constructor
    · simp only [buildGeomFilter, String.append_assoc]
    · intro h1 h2 h3 h4
      simp only [buildGeomFilter, h1, h2, h3, h4]
      decide
  · intro hbox
    cases hprep : prepareFilters parseWhere parseGeometry render options with
    | error e =>
      rw [aggregate_of_parse_error exec parseWhere parseGeometry render fuel s table limit
        precision options e hprep]
      rfl
    | ok prepared =>
      rw [aggregate_options_of_prepared exec parseWhere parseGeometry render fuel s table limit
        precision options prepared hprep]
      simp only [prepareFilters, resetFilters] at hprep
      split at hprep
      · exact absurd hprep (by simp)
      · injection hprep with h1
        rw [← h1, hbox]
        rfl

/-- Witness for C13: a call whose geometry parser finds the box (0, 0, 10, 10),
and a call whose geometry parser finds a box with fractional coordinates. -/
theorem aggregate_geometry_fragment_witness :
    ((prepareFilters ilikeParseWhere boxParseGeometry toStr nameOptions
        = .ok ⟨nameOptions.where_, nameOptions.geometry, .str " WHERE name = 'foo'",
            .str (" ST_GeomFromGeoJSON(feature->>'geometry') && "
              ++ "ST_SetSRID('BOX3D(0 0,10 10)'::box3d,4326)")⟩ ∧
      boxParseGeometry nameOptions.geometry = some ⟨.num 0, .num 0, .num 10, .num 10⟩) ∧
    (aggregate sampleExec ilikeParseWhere boxParseGeometry toStr 4 () "features" 5 3
        nameOptions).options.geomFilter
      = .str (" ST_GeomFromGeoJSON(feature->>'geometry') && "
          ++ "ST_SetSRID('BOX3D(0 0,10 10)'::box3d,4326)")) ∧
    ((prepareFilters ilikeParseWhere tenthsParseGeometry renderTenths nameOptions
        = .ok ⟨nameOptions.where_, nameOptions.geometry, .str " WHERE name = 'foo'",
            .str (" ST_GeomFromGeoJSON(feature->>'geometry') && "
              ++ "ST_SetSRID('BOX3D(-122.5 37.2,-121.9 37.8)'::box3d,4326)")⟩ ∧
      tenthsParseGeometry nameOptions.geometry = some ⟨⟨-1225⟩, ⟨372⟩, ⟨-1219⟩, ⟨378⟩⟩) ∧
    (aggregate sampleExec ilikeParseWhere tenthsParseGeometry renderTenths 4 () "features" 5 3
        nameOptions).options.geomFilter
      = .str (" ST_GeomFromGeoJSON(feature->>'geometry') && ST_SetSRID('BOX3D("
          ++ renderTenths ⟨-1225⟩ ++ " " ++ renderTenths ⟨372⟩ ++ ","
          ++ renderTenths ⟨-1219⟩ ++ " " ++ renderTenths ⟨378⟩ ++ ")'::box3d,4326)") ∧
      (renderTenths ⟨-1225⟩ = "-122.5" ∧ renderTenths ⟨372⟩ = "37.2" ∧
        renderTenths ⟨-1219⟩ = "-121.9" ∧ renderTenths ⟨378⟩ = "37.8")) :=
  ⟨⟨⟨by rfl, by rfl⟩,
      ((aggregate_geometry_fragment sampleExec ilikeParseWhere boxParseGeometry toStr 4 ()
        "features" 5 3 nameOptions).1 _ ⟨.num 0, .num 0, .num 10, .num 10⟩ (by rfl)
        (by rfl)).2 (by decide) (by decide) (by decide) (by decide)⟩,
    ⟨⟨by rfl, by rfl⟩,
      ((aggregate_geometry_fragment sampleExec ilikeParseWhere tenthsParseGeometry renderTenths
        4 () "features" 5 3 nameOptions).1 _ ⟨⟨-1225⟩, ⟨372⟩, ⟨-1219⟩, ⟨378⟩⟩ (by rfl)
        (by rfl)).1,
      by decide⟩⟩

theorem aggregate_options_fields {σ : Type} (exec : Executor σ)
    (parseWhere : JSVal → Except JSVal JSVal) {β : Type}
    (parseGeometry : JSVal → Option (Box β)) (render : β → String)
    (fuel : Nat) (s : σ) (table : String) (limit precision : Int) (options : Options) :
    (aggregate exec parseWhere parseGeometry render fuel s table limit precision
        options).options.where_ = options.where_ ∧
      (aggregate exec parseWhere parseGeometry render fuel s table limit precision
        options).options.geometry = options.geometry := by
  cases hb : buildWhereFilter parseWhere options.where_ with
  | error e =>
    rw [aggregate_of_parse_error exec parseWhere parseGeometry render fuel s table limit precision
      options e (prepareFilters_of_rejected parseWhere parseGeometry render options e hb)]
    exact ⟨rfl, rfl⟩
  | ok whereFilter =>
    rw [aggregate_options_of_prepared exec parseWhere parseGeometry render fuel s table limit
      precision options _ (prepareFilters_of_where parseWhere parseGeometry render options _ hb)]
    exact ⟨rfl, rfl⟩

theorem prepareFilters_congr (parseWhere : JSVal → Except JSVal JSVal)
    {β : Type}
    (parseGeometry : JSVal → Option (Box β)) (render : β → String) (options1 options2 : Options)
    (hw : options1.where_ = options2.where_) (hg : options1.geometry = options2.geometry) :
    prepareFilters parseWhere parseGeometry render options1
        = prepareFilters parseWhere parseGeometry render options2 ∧
      resetFilters options1 = resetFilters options2 := by
  simp only [prepareFilters, resetFilters, hw, hg, and_self]

/-- A count above the limit comes from a probe that succeeded. -/
theorem probeCallback_exceeds (answer : Response) (err count : JSVal) (limit : Int)
    (h : probeCallback answer = .callback err count)
    (hlim : exceedsLimit count limit = true) :
    err = .null ∧ ∃ n, parseInt count = some n ∧ limit < n := by
  have herr : err = .null := by
    obtain ⟨aerr, ares⟩ := answer
    simp only [probeCallback] at h
    split at h
    · injection h with _ h2
      rw [← h2, exceedsLimit_null] at hlim
      exact absurd hlim (by simp)
    · split at h
      · injection h with h1 _
        exact h1.symm
      · exact absurd h (by simp)
  refine ⟨herr, ?_⟩
  cases hp : parseInt count with
  | none => simp [exceedsLimit, hp] at hlim
  | some n =>
    refine ⟨n, rfl, ?_⟩
    simpa [exceedsLimit, hp] using hlim

/-- The probes of a run that calls back with `q`: one at each precision from `p`
down to `q`, all but the last with a count above the limit. -/
theorem reducePrecision_trace_shape {σ : Type} (exec : Executor σ) (table : String)
    (options : Options) (limit : Int) :
    ∀ (fuel : Nat) (s : σ) (p : Int) (err : JSVal) (q : Int),
      (reducePrecision exec fuel s table p options limit).result = some (.callback err q) →
        q ≤ p ∧
        (reducePrecision exec fuel s table p options limit).trace.length = (p - q).toNat + 1 ∧
        ∀ (i : Nat) (e : Event),
          (reducePrecision exec fuel s table p options limit).trace[i]? = some e →
            ∃ answer, e = .probe (p - (i : Int)) (countSql table (p - (i : Int)) options) answer ∧
              (i < (p - q).toNat → ∃ count n,
                probeCallback answer = .callback .null count ∧ parseInt count = some n ∧
                  limit < n) := by
  intro fuel
  induction fuel with
  | zero => intro s p err q h; simp [reducePrecision] at h
  | succ fuel ih =>
    intro s p err q h
    rw [reducePrecision_succ] at h ⊢
    cases hc : probeCallback (exec s (countSql table p options)).1 with
    | threw e => rw [hc] at h; simp at h
    | callback err1 count =>
      rw [hc] at h
      by_cases hlim : exceedsLimit count limit = true
      · simp only [hlim, if_true] at h ⊢
        obtain ⟨h1, h2, h3⟩ := ih _ _ _ _ h
        obtain ⟨hnull, n, hn, hgt⟩ := probeCallback_exceeds _ _ _ _ hc hlim
        refine ⟨by omega, by simp only [List.length_cons]; omega, ?_⟩
        intro i e hi
        cases i with
        | zero =>
          simp only [List.getElem?_cons_zero, Option.some.injEq] at hi
          refine ⟨(exec s (countSql table p options)).1, by rw [← hi]; simp,
            fun _ => ⟨count, n, ?_, hn, hgt⟩⟩
          rw [hc, hnull]
        | succ j =>
          simp only [List.getElem?_cons_succ] at hi
          obtain ⟨answer, he, hbefore⟩ := h3 j e hi
          have hidx : p - 1 - (j : Int) = p - ((j + 1 : Nat) : Int) := by
            push_cast
            omega
          rw [hidx] at he
          exact ⟨answer, he, fun hj => hbefore (by omega)⟩
      · simp only [hlim] at h ⊢
        simp only [Bool.false_eq_true, if_false, Option.some.injEq,
          ReduceOutcome.callback.injEq] at h ⊢
        obtain ⟨_, hq⟩ := h
        subst hq
        refine ⟨le_refl _, by simp, ?_⟩
        intro i e hi
        cases i with
        | zero =>
          simp only [List.getElem?_cons_zero, Option.some.injEq] at hi
          exact ⟨(exec s (countSql table p options)).1, by rw [← hi]; simp,
            fun hlt => absurd hlt (by simp)⟩
        | succ j => simp at hi

/-- C14: a run of `aggregate` does not depend on the `whereFilter` and `geomFilter`
that `options` held on entry: two calls that agree on everything else, started
on the same database state, are the same run (same queries and answers, same
outcome, same filters left behind); so a call that reuses the options object an
earlier call mutated runs as a call on the original object. -/
theorem aggregate_ignores_incoming_filters {σ : Type} (exec : Executor σ)
    (parseWhere : JSVal → Except JSVal JSVal) {β : Type}
    (parseGeometry : JSVal → Option (Box β)) (render : β → String)
    (fuel : Nat) (s : σ) (table : String) (limit precision : Int) (options1 options2 : Options)
    (hw : options1.where_ = options2.where_) (hg : options1.geometry = options2.geometry) :
    aggregate exec parseWhere parseGeometry render fuel s table limit precision options1
        = aggregate exec parseWhere parseGeometry render fuel s table limit precision options2 ∧
      ∀ (fuel0 : Nat) (s0 : σ),
        aggregate exec parseWhere parseGeometry render fuel s table limit precision
            (aggregate exec parseWhere parseGeometry render fuel0 s0 table limit precision
              options1).options
          = aggregate exec parseWhere parseGeometry render fuel s table limit precision options2 := by
  have h := prepareFilters_congr parseWhere parseGeometry render options1 options2 hw hg
  refine ⟨aggregate_congr_prepare exec parseWhere parseWhere parseGeometry parseGeometry render render fuel s
    table limit precision options1 options2 h.1 h.2, ?_⟩
  intro fuel0 s0
  have hf := aggregate_options_fields exec parseWhere parseGeometry render fuel0 s0 table limit
    precision options1
  have h2 := prepareFilters_congr parseWhere parseGeometry render
    (aggregate exec parseWhere parseGeometry render fuel0 s0 table limit precision options1).options
    options2 (hf.1.trans hw) (hf.2.trans hg)
  exact aggregate_congr_prepare exec parseWhere parseWhere parseGeometry parseGeometry render render fuel s
    table limit precision _ options2 h2.1 h2.2

/-- Witness for C14: the sentinel call started with stale filters, and started
again on the options it left behind. -/
theorem aggregate_ignores_incoming_filters_witness :
    ((⟨.str "1=1", .undefined, .str " WHERE old", .str " old box"⟩ : Options).where_
        = sampleOptions.where_ ∧
      (⟨.str "1=1", .undefined, .str " WHERE old", .str " old box"⟩ : Options).geometry
        = sampleOptions.geometry) ∧
    (aggregate sampleExec sampleParseWhere sampleParseGeometry toStr 4 () "features" 5 3
        ⟨.str "1=1", .undefined, .str " WHERE old", .str " old box"⟩
        = aggregate sampleExec sampleParseWhere sampleParseGeometry toStr 4 () "features" 5 3
            sampleOptions ∧
      ∀ (fuel0 : Nat) (s0 : Unit),
        aggregate sampleExec sampleParseWhere sampleParseGeometry toStr 4 () "features" 5 3
            (aggregate sampleExec sampleParseWhere sampleParseGeometry toStr fuel0 s0 "features" 5 3
              ⟨.str "1=1", .undefined, .str " WHERE old", .str " old box"⟩).options
          = aggregate sampleExec sampleParseWhere sampleParseGeometry toStr 4 () "features" 5 3
              sampleOptions) :=
  ⟨⟨by decide, by decide⟩,
    aggregate_ignores_incoming_filters sampleExec sampleParseWhere sampleParseGeometry toStr 4 ()
      "features" 5 3 ⟨.str "1=1", .undefined, .str " WHERE old", .str " old box"⟩ sampleOptions
      (by decide) (by decide)⟩

/-- Counterexample to C18 as stated: with a parser that throws on the where
expression, `aggregate` ends by that exception; no query is issued and the
callback is not invoked. -/
theorem aggregate_parse_error_counterexample :
    (aggregate sampleExec rejectingParseWhere sampleParseGeometry toStr 4 () "features" 5 3
        malformedOptions).outcome = some (.threw (.error "Parse error")) ∧
      (aggregate sampleExec rejectingParseWhere sampleParseGeometry toStr 4 () "features" 5 3
        malformedOptions).trace = [] := by
  decide

/-- C18, amended: when the where parser throws `e` on `options.where` (a truthy
value other than `1=1`), `aggregate` lets that exception, unchanged, escape to
its caller: no query is issued, the callback is not invoked, and the filters of
`options` are left cleared. -/
theorem aggregate_parse_error_escapes {σ : Type} (exec : Executor σ)
    (parseWhere : JSVal → Except JSVal JSVal) {β : Type}
    (parseGeometry : JSVal → Option (Box β)) (render : β → String)
    (fuel : Nat) (s : σ) (table : String) (limit precision : Int) (options : Options)
    (e : JSVal)
    (hw : truthy options.where_ = true) (hne : options.where_ ≠ .str "1=1")
    (hparse : parseWhere options.where_ = .error e) :
    aggregate exec parseWhere parseGeometry render fuel s table limit precision options
        = ⟨[], s, resetFilters options, some (.threw e)⟩ ∧
      ∀ (err : JSVal) (second : Option Payload),
        (aggregate exec parseWhere parseGeometry render fuel s table limit precision options).outcome
          ≠ some (.callback err second) := by
  have hrun := aggregate_of_parse_error exec parseWhere parseGeometry render fuel s table limit
    precision options e (prepareFilters_of_rejected parseWhere parseGeometry render options e
      (buildWhereFilter_rejected parseWhere _ e hw hne hparse))
  refine ⟨hrun, ?_⟩
  intro err second h
  rw [hrun] at h
  simp at h

/-- Witness for the amended C18: the malformed sample call. -/
theorem aggregate_parse_error_escapes_witness :
    (truthy malformedOptions.where_ = true ∧ malformedOptions.where_ ≠ .str "1=1" ∧
      rejectingParseWhere malformedOptions.where_ = .error (.error "Parse error")) ∧
    aggregate sampleExec rejectingParseWhere sampleParseGeometry toStr 4 () "features" 5 3
        malformedOptions
      = ⟨[], (), resetFilters malformedOptions, some (.threw (.error "Parse error"))⟩ :=
  ⟨⟨by decide, by decide, by rfl⟩,
    (aggregate_parse_error_escapes sampleExec rejectingParseWhere sampleParseGeometry toStr 4 ()
      "features" 5 3 malformedOptions (.error "Parse error") (by decide) (by decide)
      (by rfl)).1⟩

/-! ## Occurrences of `ilike` after the normalization -/

theorem startsIlike_iff (cs : List Char) :
    startsIlike cs = true ↔ ∃ back, cs = 'i' :: 'l' :: 'i' :: 'k' :: 'e' :: back := by
  simp only [startsIlike, decide_eq_true_eq]
  constructor
  · intro h
    refine ⟨cs.drop 5, ?_⟩
    have := List.take_append_drop 5 cs
    rw [h] at this
    exact this.symm
  · rintro ⟨back, rfl⟩
    rfl

theorem hasIlike_iff (cs : List Char) :
    hasIlike cs = true ↔
      ∃ front back, cs = front ++ 'i' :: 'l' :: 'i' :: 'k' :: 'e' :: back := by
  induction cs with
  | nil =>
    simp only [hasIlike, Bool.false_eq_true, false_iff]
    rintro ⟨front, back, h⟩
    cases front <;> simp at h
  | cons c rest ih =>
    simp only [hasIlike, Bool.or_eq_true, startsIlike_iff, ih]
    constructor
    · rintro (⟨back, h⟩ | ⟨front, back, h⟩)
      · exact ⟨[], back, h⟩
      · exact ⟨c :: front, back, by rw [h]; rfl⟩
    · rintro ⟨front, back, h⟩
      cases front with
      | nil => exact Or.inl ⟨back, h⟩
      | cons x front =>
        simp only [List.cons_append, List.cons.injEq] at h
        exact Or.inr ⟨front, back, h.2⟩

theorem hasIlike_replaceIlike (cs : List Char) : hasIlike (replaceIlike cs) = false := by
  cases h : hasIlike (replaceIlike cs) with
  | false => rfl
  | true =>
    obtain ⟨front, back, hocc⟩ := (hasIlike_iff _).1 h
    exact absurd hocc (replaceIlike_no_ilike front cs back)

theorem removePercent_cons_percent (cs : List Char) :
    removePercent ('%' :: cs) = removePercent cs := by
  simp [removePercent]

theorem removePercent_cons_of_ne (c : Char) (cs : List Char) (h : c ≠ '%') :
    removePercent (c :: cs) = c :: removePercent cs := by
  simp [removePercent, h]

theorem dropWhile_percent_cons (cs : List Char) :
    ('%' :: cs).dropWhile (fun c => c == '%') = cs.dropWhile (fun c => c == '%') := by
  simp [List.dropWhile]

theorem dropWhile_percent_of_ne (c : Char) (cs : List Char) (h : c ≠ '%') :
    (c :: cs).dropWhile (fun c => c == '%') = c :: cs := by
  have hb : (c == '%') = false := by simpa using h
  simp [List.dropWhile, hb]

/-- The first character that survives the deletion of `%` is the first one that
is not a `%`. -/
theorem dropWhile_of_removePercent (cs : List Char) :
    ∀ (x : Char) (out : List Char), removePercent cs = x :: out →
      ∃ rest, cs.dropWhile (fun c => c == '%') = x :: rest ∧ removePercent rest = out := by
  induction cs with
  | nil => intro x out h; simp [removePercent] at h
  | cons c cs ih =>
    intro x out h
    by_cases hc : c = '%'
    · subst hc
      rw [removePercent_cons_percent] at h
      obtain ⟨rest, h1, h2⟩ := ih x out h
      exact ⟨rest, by rw [dropWhile_percent_cons]; exact h1, h2⟩
    · rw [removePercent_cons_of_ne c cs hc] at h
      injection h with h1 h2
      subst h1
      exact ⟨cs, dropWhile_percent_of_ne c cs hc, h2⟩

theorem looseMatch_of_removePercent (letters : List Char) :
    ∀ (cs out : List Char), removePercent cs = letters ++ out →
      looseMatch letters cs = true := by
  induction letters with
  | nil => intro cs out _; rfl
  | cons x letters ih =>
    intro cs out h
    obtain ⟨rest, h1, h2⟩ := dropWhile_of_removePercent cs x (letters ++ out) h
    simp only [looseMatch, h1, beq_self_eq_true, Bool.true_and]
    exact ih rest out h2

/-- A text without `ilike` whose `%`-free copy holds one holds a broken `ilike`. -/
theorem hasBrokenIlike_of_removePercent (cs : List Char) :
    hasIlike cs = false → hasIlike (removePercent cs) = true → hasBrokenIlike cs = true := by
  induction cs with
  | nil => intro _ h; simp [removePercent, hasIlike] at h
  | cons c cs ih =>
    intro hno h
    simp only [hasIlike, Bool.or_eq_false_iff] at hno
    by_cases hc : c = '%'
    · subst hc
      rw [removePercent_cons_percent] at h
      simp only [hasBrokenIlike, Bool.or_eq_true]
      exact Or.inr (ih hno.2 h)
    · rw [removePercent_cons_of_ne c cs hc] at h
      simp only [hasIlike, Bool.or_eq_true] at h
      simp only [hasBrokenIlike, Bool.or_eq_true]
      rcases h with h | h
      · left
        obtain ⟨back, hback⟩ := (startsIlike_iff _).1 h
        injection hback with h1 h2
        subst h1
        have hloose := looseMatch_of_removePercent ['l', 'i', 'k', 'e'] cs back h2
        simp only [startsBrokenIlike, beq_self_eq_true, hloose, hno.1, Bool.not_false,
          Bool.and_self]
      · exact Or.inr (ih hno.2 h)

theorem dropWhile_replaceIlike (cs : List Char) :
    (replaceIlike cs).dropWhile (fun c => c == '%')
      = replaceIlike (cs.dropWhile (fun c => c == '%')) := by
  induction cs using replaceIlike.induct with
  | case1 rest _ =>
    rw [dropWhile_percent_of_ne 'i' _ (by decide), replaceIlike.eq_1,
      dropWhile_percent_of_ne '=' _ (by decide)]
  | case2 c rest hno ih =>
    rw [replaceIlike.eq_2 c rest hno]
    by_cases hc : c = '%'
    · subst hc
      rw [dropWhile_percent_cons, dropWhile_percent_cons]
      exact ih
    · rw [dropWhile_percent_of_ne c _ hc, dropWhile_percent_of_ne c _ hc,
        replaceIlike.eq_2 c rest hno]
  | case3 => simp [replaceIlike]

theorem looseMatch_of_replaceIlike (letters : List Char) (hletters : '=' ∉ letters) :
    ∀ cs : List Char, looseMatch letters (replaceIlike cs) = true →
      looseMatch letters cs = true := by
  induction letters with
  | nil => intro cs _; rfl
  | cons x letters ih =>
    intro cs h
    have hx : x ≠ '=' := fun e => hletters (by rw [e]; exact List.mem_cons_self _ _)
    have hrest : '=' ∉ letters := fun hm => hletters (List.mem_cons_of_mem _ hm)
    simp only [looseMatch, dropWhile_replaceIlike] at h ⊢
    cases hd : cs.dropWhile (fun c => c == '%') with
    | nil => rw [hd] at h; simp [replaceIlike] at h
    | cons c rest =>
      rw [hd] at h
      cases hr : replaceIlike (c :: rest) with
      | nil => rw [hr] at h; simp at h
      | cons y out =>
        rw [hr] at h
        simp only [Bool.and_eq_true, beq_iff_eq] at h
        obtain ⟨hy, hout⟩ := h
        subst hy
        obtain ⟨rest1, h1, h2, _⟩ := replaceIlike_head (c :: rest) out y hr hx
        injection h1 with h3 h4
        subst h3 h4
        rw [h2] at hout
        simp only [beq_self_eq_true, Bool.true_and]
        exact ih hrest rest hout

theorem hasBrokenIlike_append (front cs : List Char) (h : hasBrokenIlike cs = true) :
    hasBrokenIlike (front ++ cs) = true := by
  induction front with
  | nil => exact h
  | cons x front ih =>
    simp only [List.cons_append, hasBrokenIlike, Bool.or_eq_true]
    exact Or.inr ih

/-- The replacement of `ilike` brings in no broken `ilike`. -/
theorem hasBrokenIlike_of_replaceIlike (cs : List Char) :
    hasBrokenIlike (replaceIlike cs) = true → hasBrokenIlike cs = true := by
  induction cs using replaceIlike.induct with
  | case1 rest ih =>
    intro h
    rw [replaceIlike.eq_1] at h
    simp only [hasBrokenIlike, Bool.or_eq_true] at h
    rcases h with h | h
    · simp [startsBrokenIlike] at h
    · exact hasBrokenIlike_append ['i', 'l', 'i', 'k', 'e'] rest (ih h)
  | case2 c rest hno ih =>
    intro h
    rw [replaceIlike.eq_2 c rest hno] at h
    simp only [hasBrokenIlike, Bool.or_eq_true] at h ⊢
    rcases h with h | h
    · left
      simp only [startsBrokenIlike, Bool.and_eq_true, beq_iff_eq, Bool.not_eq_true'] at h ⊢
      obtain ⟨⟨hc, hloose⟩, _⟩ := h
      refine ⟨⟨hc, looseMatch_of_replaceIlike _ (by decide) rest hloose⟩, ?_⟩
      cases hs : startsIlike (c :: rest) with
      | false => rfl
      | true =>
        obtain ⟨back, hback⟩ := (startsIlike_iff _).1 hs
        injection hback with h1 h2
        exact absurd h2 (hno back h1)
    · exact Or.inr (ih h)
  | case3 => intro h; simp [replaceIlike, hasBrokenIlike] at h

theorem hasBrokenIlike_where (cs : List Char) :
    hasBrokenIlike (" WHERE ".data ++ cs) = hasBrokenIlike cs := by
  have h : " WHERE ".data = [' ', 'W', 'H', 'E', 'R', 'E', ' '] := by decide
  rw [h]
  simp [hasBrokenIlike, startsBrokenIlike]

/-- The normalized text holds no `ilike` unless the source holds a broken one. -/
theorem normalize_no_ilike (source : List Char) (h : hasBrokenIlike source = false)
    (front back : List Char) :
    removePercent (replaceIlike (" WHERE ".data ++ source))
      ≠ front ++ 'i' :: 'l' :: 'i' :: 'k' :: 'e' :: back := by
  intro hocc
  have h1 : hasIlike (removePercent (replaceIlike (" WHERE ".data ++ source))) = true :=
    (hasIlike_iff _).2 ⟨front, back, hocc⟩
  have h2 := hasBrokenIlike_of_removePercent _ (hasIlike_replaceIlike _) h1
  have h3 := hasBrokenIlike_of_replaceIlike _ h2
  rw [hasBrokenIlike_where, h] at h3
  exact absurd h3 (by simp)

/-- Counterexample to C19 as stated: the clause `name ilike 'il%ike'`, which
holds a broken `ilike`, is normalized to a fragment that holds the text `ilike`;
and a clause that writes the operator in upper case keeps it. -/
theorem aggregate_where_ilike_counterexample :
    ((aggregate sampleExec patternParseWhere sampleParseGeometry toStr 4 () "features" 5 3
        patternOptions).options.whereFilter = .str " WHERE name = 'ilike'" ∧
      " WHERE name = 'ilike'".data
        = " WHERE name = '".data ++ 'i' :: 'l' :: 'i' :: 'k' :: 'e' :: "'".data) ∧
    (aggregate sampleExec upperParseWhere sampleParseGeometry toStr 4 () "features" 5 3
        nameOptions).options.whereFilter = .str " WHERE name ILIKE 'foo'" ∧
    hasBrokenIlike "name ilike 'il%ike'".data = true := by
  decide

/-- C19, amended: for a where option that is not falsy, with `source` the text
that is wrapped (the clause of the parser, or `1=1`), the replacement of the
lower-case text `ilike` by `=` leaves no occurrence of `ilike` in the wrapped
text; the where fragment, obtained by then deleting every `%`, holds no
occurrence of `ilike` unless the source holds a broken one: the letters `i`,
`l`, `i`, `k`, `e` in a row but for `%` characters between them. -/
theorem aggregate_where_no_ilike {σ : Type} (exec : Executor σ)
    (parseWhere : JSVal → Except JSVal JSVal) {β : Type}
    (parseGeometry : JSVal → Option (Box β)) (render : β → String)
    (fuel : Nat) (s : σ) (table : String) (limit precision : Int) (options : Options)
    (source : JSVal)
    (hw : truthy options.where_ = true)
    (hsource : (options.where_ = .str "1=1" ∧ source = options.where_) ∨
      (options.where_ ≠ .str "1=1" ∧ parseWhere options.where_ = .ok source)) :
    (aggregate exec parseWhere parseGeometry render fuel s table limit precision
        options).options.whereFilter
        = .str (String.mk (removePercent (replaceIlike (" WHERE " ++ toStr source).data))) ∧
      (∀ front back : List Char,
        replaceIlike (" WHERE " ++ toStr source).data
          ≠ front ++ 'i' :: 'l' :: 'i' :: 'k' :: 'e' :: back) ∧
      (hasBrokenIlike (toStr source).data = false →
        ∀ front back : List Char,
          removePercent (replaceIlike (" WHERE " ++ toStr source).data)
            ≠ front ++ 'i' :: 'l' :: 'i' :: 'k' :: 'e' :: back) := by
  have hb : buildWhereFilter parseWhere options.where_
      = .ok (.str (normalizeWhere (" WHERE " ++ toStr source))) := by
    rcases hsource with ⟨h1, h2⟩ | ⟨h1, h2⟩
    · rw [h2, h1]
      rw [h1] at hw
      simp only [buildWhereFilter, hw, if_true, ne_eq, not_true_eq_false, if_false]
    · simp [buildWhereFilter, hw, h1, h2]
  refine ⟨?_, fun front back => replaceIlike_no_ilike front _ back, ?_⟩
  · rw [aggregate_options_of_prepared exec parseWhere parseGeometry render fuel s table limit
      precision options _ (prepareFilters_of_where parseWhere parseGeometry render options _ hb)]
    rfl
  · intro hno front back
    rw [String.data_append]
    exact normalize_no_ilike _ hno front back

/-- Witness for the amended C19: a call whose parser returns `name ilike '%foo%'`,
in which the operator is replaced and the wildcards are deleted. -/
theorem aggregate_where_no_ilike_witness :
    (truthy nameOptions.where_ = true ∧ nameOptions.where_ ≠ .str "1=1" ∧
      ilikeParseWhere nameOptions.where_ = .ok (.str "name ilike '%foo%'") ∧
      hasBrokenIlike "name ilike '%foo%'".data = false) ∧
    ((aggregate sampleExec ilikeParseWhere sampleParseGeometry toStr 4 () "features" 5 3
        nameOptions).options.whereFilter
        = .str (String.mk (removePercent
            (replaceIlike (" WHERE " ++ "name ilike '%foo%'").data))) ∧
      String.mk (removePercent (replaceIlike (" WHERE " ++ "name ilike '%foo%'").data))
        = " WHERE name = 'foo'" ∧
      (∀ front back : List Char,
        replaceIlike (" WHERE " ++ "name ilike '%foo%'").data
          ≠ front ++ 'i' :: 'l' :: 'i' :: 'k' :: 'e' :: back) ∧
      (∀ front back : List Char,
        removePercent (replaceIlike (" WHERE " ++ "name ilike '%foo%'").data)
          ≠ front ++ 'i' :: 'l' :: 'i' :: 'k' :: 'e' :: back)) :=
  ⟨⟨by decide, by decide, by rfl, by decide⟩,
    (aggregate_where_no_ilike sampleExec ilikeParseWhere sampleParseGeometry toStr 4 ()
      "features" 5 3 nameOptions (.str "name ilike '%foo%'") (by decide)
      (Or.inr ⟨by decide, by rfl⟩)).1,
    by decide,
    (aggregate_where_no_ilike sampleExec ilikeParseWhere sampleParseGeometry toStr 4 ()
      "features" 5 3 nameOptions (.str "name ilike '%foo%'") (by decide)
      (Or.inr ⟨by decide, by rfl⟩)).2.1,
    (aggregate_where_no_ilike sampleExec ilikeParseWhere sampleParseGeometry toStr 4 ()
      "features" 5 3 nameOptions (.str "name ilike '%foo%'") (by decide)
      (Or.inr ⟨by decide, by rfl⟩)).2.2 (by decide)⟩

/-- C20: a run of `reducePrecision` started at `p` that calls back with `q` has
issued exactly `p - q + 1` probes; the probe of rank `i` is the count query at
precision `p - i`, so the precisions are `p, p - 1, ..., q` in that order and
none is probed twice; and every probe before the last was answered without error
with a count above the limit. -/
theorem reducePrecision_probe_sequence {σ : Type} (exec : Executor σ) (table : String)
    (options : Options) (limit : Int) (fuel : Nat) (s : σ) (p : Int) (err : JSVal) (q : Int)
    (hred : (reducePrecision exec fuel s table p options limit).result
      = some (.callback err q)) :
    q ≤ p ∧
      ((reducePrecision exec fuel s table p options limit).trace.length : Int) = p - q + 1 ∧
      (∀ (i : Nat) (e : Event),
        (reducePrecision exec fuel s table p options limit).trace[i]? = some e →
          ∃ answer, e = .probe (p - (i : Int)) (countSql table (p - (i : Int)) options) answer ∧
            (i + 1 < (reducePrecision exec fuel s table p options limit).trace.length →
              ∃ count n, probeCallback answer = .callback .null count ∧
                parseInt count = some n ∧ limit < n)) ∧
      (∀ (i j : Nat) (r : Int) (sql1 sql2 : String) (answer1 answer2 : Response),
        (reducePrecision exec fuel s table p options limit).trace[i]?
            = some (.probe r sql1 answer1) →
          (reducePrecision exec fuel s table p options limit).trace[j]?
            = some (.probe r sql2 answer2) →
          i = j) := by
  obtain ⟨h1, h2, h3⟩ :=
    reducePrecision_trace_shape exec table options limit fuel s p err q hred
  refine ⟨h1, by rw [h2]; push_cast; omega, ?_, ?_⟩
  · intro i e hi
    obtain ⟨answer, he, hbefore⟩ := h3 i e hi
    exact ⟨answer, he, fun hlt => hbefore (by omega)⟩
  · intro i j r sql1 sql2 answer1 answer2 hi hj
    obtain ⟨a1, he1, _⟩ := h3 i _ hi
    obtain ⟨a2, he2, _⟩ := h3 j _ hj
    simp only [Event.probe.injEq] at he1 he2
    have : (i : Int) = (j : Int) := by omega
    exact_mod_cast this

/-- Witness for C20: the sample descent from 3 to 2. -/
theorem reducePrecision_probe_sequence_witness :
    (reducePrecision sampleExec 4 () "features" 3 samplePrepared 5).result
        = some (.callback .null 2) ∧
    ((2 : Int) ≤ 3 ∧
      ((reducePrecision sampleExec 4 () "features" 3 samplePrepared 5).trace.length : Int)
        = 3 - 2 + 1 ∧
      (∀ (i : Nat) (e : Event),
        (reducePrecision sampleExec 4 () "features" 3 samplePrepared 5).trace[i]? = some e →
          ∃ answer,
            e = .probe (3 - (i : Int)) (countSql "features" (3 - (i : Int)) samplePrepared)
              answer ∧
            (i + 1 < (reducePrecision sampleExec 4 () "features" 3 samplePrepared 5).trace.length →
              ∃ count n, probeCallback answer = .callback .null count ∧
                parseInt count = some n ∧ 5 < n)) ∧
      (∀ (i j : Nat) (r : Int) (sql1 sql2 : String) (answer1 answer2 : Response),
        (reducePrecision sampleExec 4 () "features" 3 samplePrepared 5).trace[i]?
            = some (.probe r sql1 answer1) →
          (reducePrecision sampleExec 4 () "features" 3 samplePrepared 5).trace[j]?
            = some (.probe r sql2 answer2) →
          i = j)) :=
  ⟨by decide,
    reducePrecision_probe_sequence sampleExec "features" samplePrepared 5 4 () 3 .null 2
      (by decide)⟩

/-- C15: `create` returns `null` when the feature has no geometry or its geometry
has no coordinates, whatever the centroid function and the encoder are, ones
that throw included: neither is called. -/
theorem create_null {ν : Type} (centroid : Feature ν → Except JSVal (Feature ν))
    (encode : Option (Coord ν) → Option (Coord ν) → Int → Except JSVal String)
    (feature : Feature ν) (precision : Int)
    (h : feature.geometry = none ∨
      ∃ geometry, feature.geometry = some geometry ∧ geometry.coordinates = none) :
    create centroid encode feature precision = .null := by
  rcases h with h | ⟨geometry, h1, h2⟩
  · simp only [create, h]
  · simp only [create, h1, h2]

/-- Witness for C15: a feature without geometry and one without coordinates,
with a centroid function and an encoder that throw when called. -/
theorem create_null_witness :
    ((⟨none⟩ : Feature Int).geometry = none ∧
      create failingCentroid failingEncode ⟨none⟩ 8 = .null) ∧
    ((∃ geometry, (⟨some ⟨.str "Polygon", none⟩⟩ : Feature Int).geometry = some geometry ∧
        geometry.coordinates = none) ∧
      create failingCentroid failingEncode ⟨some ⟨.str "Polygon", none⟩⟩ 8 = .null) :=
  ⟨⟨rfl, create_null failingCentroid failingEncode ⟨none⟩ 8 (Or.inl rfl)⟩,
    ⟨⟨_, rfl, rfl⟩,
      create_null failingCentroid failingEncode ⟨some ⟨.str "Polygon", none⟩⟩ 8
        (Or.inr ⟨_, rfl, rfl⟩)⟩⟩

/-- C16: for a feature of type `Point` whose coordinates start with
`longitude, latitude`, `create` returns what the encoder returns on
`(latitude, longitude, p)`: the second coordinate first, the first coordinate
second, the precision as given; the centroid function is not called. -/
theorem create_point {ν : Type} (centroid : Feature ν → Except JSVal (Feature ν))
    (encode : Option (Coord ν) → Option (Coord ν) → Int → Except JSVal String)
    (feature : Feature ν) (p : Int) (longitude latitude : Coord ν) (rest : List (Coord ν))
    (h : feature.geometry = some ⟨.str "Point", some (longitude :: latitude :: rest)⟩) :
    create centroid encode feature p
        = Created.ofEncode (encode (some latitude) (some longitude) p) ∧
      ∀ text, encode (some latitude) (some longitude) p = .ok text →
        create centroid encode feature p = .geohash text := by
  have hrun : create centroid encode feature p
      = Created.ofEncode (encode (some latitude) (some longitude) p) := by
    simp [create, h]
  refine ⟨hrun, ?_⟩
  intro text htext
  rw [hrun, htext]
  rfl

/-- Witness for C16: the sample point, at longitude -122 and latitude 37. -/
theorem create_point_witness :
    samplePoint.geometry = some ⟨.str "Point", some [.num (-122), .num 37]⟩ ∧
      create failingCentroid sampleEncode samplePoint 8
        = Created.ofEncode (sampleEncode (some (.num 37)) (some (.num (-122))) 8) ∧
      create failingCentroid sampleEncode samplePoint 8 = .geohash "lat 37 lon -122 p 8" :=
  ⟨rfl,
    (create_point failingCentroid sampleEncode samplePoint 8 (.num (-122)) (.num 37) [] rfl).1,
    (create_point failingCentroid sampleEncode samplePoint 8 (.num (-122)) (.num 37) [] rfl).2
      _ (by rfl)⟩

/-- C17: for a feature with coordinates whose type is not `Point`, when the
centroid function returns a feature of type `Point` with coordinates, `create`
on the feature is `create` on that centroid. -/
theorem create_centroid {ν : Type} (centroid : Feature ν → Except JSVal (Feature ν))
    (encode : Option (Coord ν) → Option (Coord ν) → Int → Except JSVal String)
    (feature point : Feature ν) (p : Int) (geometry : Geometry ν)
    (coordinates pnt : List (Coord ν))
    (hgeometry : feature.geometry = some geometry)
    (hcoordinates : geometry.coordinates = some coordinates)
    (htype : geometry.type ≠ .str "Point")
    (hcentroid : centroid feature = .ok point)
    (hpoint : point.geometry = some ⟨.str "Point", some pnt⟩) :
    create centroid encode feature p = create centroid encode point p ∧
      create centroid encode feature p = Created.ofEncode (encode pnt[1]? pnt[0]? p) := by
  have h1 : create centroid encode feature p = Created.ofEncode (encode pnt[1]? pnt[0]? p) := by
    simp [create, hgeometry, hcoordinates, htype, hcentroid, hpoint]
  have h2 : create centroid encode point p = Created.ofEncode (encode pnt[1]? pnt[0]? p) := by
    simp [create, hpoint]
  exact ⟨h1.trans h2.symm, h1⟩

/-- Witness for C17: the sample line, whose centroid is the point (4, 7). -/
theorem create_centroid_witness :
    (sampleLine.geometry
        = some ⟨.str "LineString", some [.arr [.num 0, .num 0], .arr [.num 8, .num 14]]⟩ ∧
      (.str "LineString" : JSVal) ≠ .str "Point" ∧
      sampleCentroid sampleLine = .ok ⟨some ⟨.str "Point", some [.num 4, .num 7]⟩⟩) ∧
    (create sampleCentroid sampleEncode sampleLine 8
        = create sampleCentroid sampleEncode ⟨some ⟨.str "Point", some [.num 4, .num 7]⟩⟩ 8 ∧
      create sampleCentroid sampleEncode sampleLine 8 = .geohash "lat 7 lon 4 p 8") :=
  ⟨⟨rfl, by decide, rfl⟩,
    (create_centroid sampleCentroid sampleEncode sampleLine
      ⟨some ⟨.str "Point", some [.num 4, .num 7]⟩⟩ 8
      ⟨.str "LineString", some [.arr [.num 0, .num 0], .arr [.num 8, .num 14]]⟩
      [.arr [.num 0, .num 0], .arr [.num 8, .num 14]] [.num 4, .num 7] rfl rfl (by decide) rfl
      rfl).1,
    by decide⟩

end Geohash
